import Mathlib

/-
  Verification of the versioned virtual filesystem engine: a git-like history
  model (repositories, branches, commits, per-commit file deltas) with linear
  parent chains, merge provenance, snapshot resolution, merge-base discovery,
  three-way conflict detection, rebase and merge finalization.

  The engine is embedded shallowly: the persisted relational store is an
  explicit `Db` value (lists of rows), every operation is a pure function of
  the store, and mutating operations return the updated store next to their
  result (errors thrown by the engine or by the store's constraints are
  `Except.error` carrying the message; the store returned with an error is the
  store as of the failure point, so absence of mutation is a provable fact).

  Modelling choices, all noted where they apply:
  - uuid identities are modelled as `Nat` (0 plays the role of the empty /
    falsy id string); timestamps, row ids of file rows and presentation-only
    metadata (repository names, commit timestamps echoed into snapshot
    entries) are omitted since no modelled operation reads them back;
  - the SQL `order by depth asc limit 1` / `row_number() ... order by depth`
    selections do not specify an order among rows of equal depth; the model
    resolves such ties deterministically by table/enumeration order, which is
    one execution the SQL permits;
  - strings are Lean strings (unicode scalar lists) rather than UTF-16 units.
-/

set_option maxHeartbeats 1000000
set_option maxRecDepth 100000

instance instDecEqExcept {ε α : Type} [DecidableEq ε] [DecidableEq α] :
    DecidableEq (Except ε α) := fun a b =>
  match a, b with
  | .error x, .error y =>
    if h : x = y then isTrue (by rw [h]) else
      isFalse (by intro hc; cases hc; exact h rfl)
  | .error _, .ok _ => isFalse (by intro hc; cases hc)
  | .ok _, .error _ => isFalse (by intro hc; cases hc)
  | .ok x, .ok y =>
    if h : x = y then isTrue (by rw [h]) else
      isFalse (by intro hc; cases hc; exact h rfl)

-- ========================================
-- Path validation and normalization
-- (source: validatePath / normalizePath / normalizeFilePath /
--  normalizePathPrefix in the fs plugin)
-- ========================================

/-- Whitespace for the purposes of `trim` (the source uses JS `String.trim`;
only ascii whitespace is relevant to the claims). -/
def isJsWs (c : Char) : Bool :=
  c = ' ' || c = '\t' || c = '\n' || c = '\r' || c = '\x0b' || c = '\x0c'

/-- JS `String.trim` on a list of characters. -/
def trimChars (s : List Char) : List Char :=
  ((s.dropWhile isJsWs).reverse.dropWhile isJsWs).reverse

/-- A control character other than tab, newline, carriage return
(source: the charCode loop of validatePath). -/
def isCtl (c : Char) : Bool :=
  c.toNat < 32 && c.toNat != 9 && c.toNat != 10 && c.toNat != 13

/-- A character invalid on Windows (source: the regex of validatePath). -/
def isWinBad (c : Char) : Bool :=
  c = '<' || c = '>' || c = '\"' || c = '|' || c = '?' || c = '*' || c = ':'

/-- `validatePath`: empty/whitespace-only, over-long, control characters and
Windows-invalid characters are rejected, in the source's order.  (The source
message for a control character interpolates the hex code; the model uses a
fixed message.) -/
def validatePath (path : String) : Except String Unit :=
  let cs := path.toList
  if (trimChars cs).length = 0 then .error ("Path cannot be null or empty")
  else if cs.length > 4096 then
    .error ("Path is too long (maximum 4096 characters)")
  else if cs.any isCtl then .error ("Path contains control characters")
  else if cs.any isWinBad then
    .error ("Path contains characters invalid on Windows")
  else .ok ()

/-- Backslash-to-slash conversion (source: `path.replace(/\\/g, "/")`). -/
def slashify (c : Char) : Char := if c = '\\' then '/' else c

/-- One global pass of `replace(/\/\//g, "/")`: scan left to right replacing
non-overlapping occurrences of `//` by `/`. -/
def replacePairs : List Char → List Char
  | [] => []
  | [c] => [c]
  | a :: b :: rest =>
    if a = '/' && b = '/' then '/' :: replacePairs rest
    else a :: replacePairs (b :: rest)

/-- Whether the list contains two adjacent slashes
(source: `normalized.includes("//")`). -/
def hasDoubleSlash : List Char → Bool
  | [] => false
  | [_] => false
  | a :: b :: rest => (a = '/' && b = '/') || hasDoubleSlash (b :: rest)

/-- The source's `while (includes("//")) replace(...)` loop, with explicit
fuel; `collapseSlashes` supplies fuel `s.length`, which suffices because each
pass strictly shortens the list while a `//` remains. -/
def collapseFuel : Nat → List Char → List Char
  | 0, s => s
  | fuel + 1, s =>
    if hasDoubleSlash s then collapseFuel fuel (replacePairs s) else s

/-- Collapse all duplicate slashes (the source's while loop). -/
def collapseSlashes (s : List Char) : List Char := collapseFuel s.length s

/-- Force a leading slash (source: `if (!normalized.startsWith("/"))`). -/
def forceLeadingSlash (s : List Char) : List Char :=
  match s with
  | '/' :: _ => s
  | _ => '/' :: s

/-- Remove a trailing slash unless the path is exactly root
(source: `if (normalized.length > 1 && normalized.endsWith("/"))`). -/
def stripTrailingSlash (s : List Char) : List Char :=
  if s.length > 1 && s.getLast? == some '/' then s.dropLast else s

/-- The normalization pipeline of `normalizePath` after validation. -/
def normalizeCore (cs : List Char) : List Char :=
  stripTrailingSlash (collapseSlashes (forceLeadingSlash (cs.map slashify)))

/-- `normalizePath`: validate, convert backslashes, force leading slash,
collapse duplicate slashes, strip a trailing slash, and re-check the
4096-character limit on the output. -/
def normalizePath (path : String) : Except String String :=
  match validatePath path with
  | .error e => .error e
  | .ok _ =>
    let r := normalizeCore path.toList
    if r.length > 4096 then
      .error ("Path is too long (maximum 4096 characters)")
    else .ok (String.mk r)

/-- `normalizeFilePath`: additionally rejects the root.  (The source message
contains a quoted slash; the model drops the quotes.) -/
def normalizeFilePath (path : String) : Except String String :=
  match normalizePath path with
  | .error e => .error e
  | .ok n =>
    if n = "/" then .error ("Root is not a valid file path") else .ok n

/-- `normalizePathPrefix`: like normalizePath but keeps an explicit trailing
slash (or backslash) from the input, and does not strip a trailing slash. -/
def normalizePathPfx (p : String) : Except String String :=
  match validatePath p with
  | .error e => .error e
  | .ok _ =>
    let cs := p.toList
    let hasTrail := cs.getLast? == some '/' || cs.getLast? == some '\\'
    let n := collapseSlashes (forceLeadingSlash (cs.map slashify))
    let n' :=
      if hasTrail && !(n == ['/']) && !(n.getLast? == some '/')
      then n ++ ['/'] else n
    if n'.length > 4096 then
      .error ("Path is too long (maximum 4096 characters)")
    else .ok (String.mk n')

-- ========================================
-- Data model (schema fs.commits / fs.branches / fs.files)
-- ========================================

/-- A row of `fs.commits` (timestamps omitted; ids are Nat). -/
structure CommitRow where
  id : Nat
  repositoryId : Nat
  parentCommitId : Option Nat
  mergedFromCommitId : Option Nat
  message : String
deriving DecidableEq, Repr

/-- A row of `fs.branches` (name and timestamp omitted: no modelled
operation reads them). -/
structure BranchRow where
  id : Nat
  repositoryId : Nat
  headCommitId : Option Nat
deriving DecidableEq, Repr

/-- A row of `fs.files` (row id and timestamp omitted). -/
structure FileRow where
  commitId : Nat
  path : String
  previousPath : Option String
  content : String
  isDeleted : Bool
  isSymlink : Bool
deriving DecidableEq, Repr

/-- The persisted store: the three row tables plus the id generator
(`uuidv7()` modelled as a counter). -/
structure Db where
  commits : List CommitRow
  branches : List BranchRow
  files : List FileRow
  nextId : Nat
deriving DecidableEq, Repr

def findCommit (db : Db) (i : Nat) : Option CommitRow :=
  db.commits.find? (fun c => c.id == i)

def findBranch (db : Db) (i : Nat) : Option BranchRow :=
  db.branches.find? (fun b => b.id == i)

/-- Rows of `fs.files` belonging to one commit, in table order. -/
def filesOfCommit (db : Db) (c : Nat) : List FileRow :=
  db.files.filter (fun f => f.commitId == c)

/-- The recursive CTE `commit_tree` (used by readFile, getCommitSnapshot and
getFileHistory): walk parent links from a commit, annotating each commit with
its depth.  Fuel bounds the walk; one more than the table size suffices for
any acyclic chain. -/
def chainFrom (db : Db) : Nat → Nat → Nat → List (Nat × Nat)
  | 0, _, _ => []
  | fuel + 1, c, d =>
    match findCommit db c with
    | none => []
    | some cm =>
      (c, d) :: (match cm.parentCommitId with
        | some p => chainFrom db fuel p (d + 1)
        | none => [])

/-- The full ancestor chain of a commit, as the CTE produces it. -/
def commitChain (db : Db) (c : Nat) : List (Nat × Nat) :=
  chainFrom db (db.commits.length + 1) c 0

/-- The parent chain from `start` terminates at a root commit within the
table-size fuel (acyclicity plus resolvable parents). -/
def chainComplete (db : Db) (start : Nat) : Prop :=
  ∃ pr, (commitChain db start).getLast? = some pr ∧
    ∃ cm, findCommit db pr.1 = some cm ∧ cm.parentCommitId = none

instance (db : Db) (start : Nat) : Decidable (chainComplete db start) := by
  unfold chainComplete; infer_instance

/-- Schema and graph invariants of a store: unique commit/branch ids, the
`(commit_id, path)` uniqueness of `fs.files`, parent / merged-from / head
references resolving inside the same repository, at most one root commit per
repository, and parent chains that terminate at a root. -/
def Db.wf (db : Db) : Prop :=
  (db.commits.map (fun c => c.id)).Nodup ∧
  (db.branches.map (fun b => b.id)).Nodup ∧
  (db.files.map (fun f => (f.commitId, f.path))).Nodup ∧
  (∀ c ∈ db.commits, ∀ p, c.parentCommitId = some p →
    ∃ c' ∈ db.commits, c'.id = p ∧ c'.repositoryId = c.repositoryId) ∧
  (∀ c ∈ db.commits, ∀ m, c.mergedFromCommitId = some m →
    ∃ c' ∈ db.commits, c'.id = m ∧ c'.repositoryId = c.repositoryId) ∧
  (∀ b ∈ db.branches, ∀ h, b.headCommitId = some h →
    ∃ c' ∈ db.commits, c'.id = h ∧ c'.repositoryId = b.repositoryId) ∧
  db.commits.Pairwise (fun a b => a.repositoryId = b.repositoryId →
    ¬(a.parentCommitId = none ∧ b.parentCommitId = none)) ∧
  (∀ c ∈ db.commits, chainComplete db c.id)

instance (db : Db) : Decidable db.wf := by
  unfold Db.wf; infer_instance

-- ========================================
-- Snapshot resolution: readFile / getCommitSnapshot[WithContent]
-- ========================================

/-- The `file_entries` CTE of readFile: along the ancestor chain, every file
row whose `path` is the queried path or whose `previous_path` is the queried
path (a move-away), paired with its depth.  The chain is emitted in ascending
depth order, so the head of this list is the row the SQL's
`order by depth asc limit 1` selects (ties at equal depth are resolved by
table order, one execution the SQL permits). -/
def matchingEntries (db : Db) (c : Nat) (p : String) : List (Nat × FileRow) :=
  (commitChain db c).flatMap (fun pr =>
    (db.files.filter (fun f =>
      f.commitId == pr.1 && (f.path == p || f.previousPath == some p))).map
      (fun f => (pr.2, f)))

/-- `readFile`: resolve a path at a commit through ancestry.  Returns
`none` for a missing, tombstoned, or moved-away path.  (`commitId = 0`
models the JS falsy-id guard on the empty string.) -/
def readFile (db : Db) (commitId : Nat) (path : String) :
    Except String (Option String) :=
  if commitId = 0 then .error ("commit_id must be specified")
  else match findCommit db commitId with
  | none => .error ("Invalid commit_id: commit does not exist")
  | some _ =>
    match normalizePath path with
    | .error e => .error e
    | .ok np =>
      match (matchingEntries db commitId np).head? with
      | none => .ok none
      | some (_, f) =>
        if f.isDeleted then .ok none
        else if f.previousPath == some np && f.path != np then .ok none
        else .ok (some f.content)

/-- One row of the `all_operations` CTE of getCommitSnapshot: a write or
tombstone at `path`, or the implicit tombstone at the `previous_path` of a
move (tagged `isMoveAway`). -/
structure SnapOp where
  path : String
  isDeleted : Bool
  isSymlink : Bool
  isMoveAway : Bool
  depth : Nat
deriving DecidableEq, Repr

/-- The operation a write/tombstone row contributes at its own path. -/
def mkWriteOp (dep : Nat) (f : FileRow) : SnapOp :=
  { path := f.path, isDeleted := f.isDeleted, isSymlink := f.isSymlink,
    isMoveAway := false, depth := dep }

/-- The implicit tombstone a move contributes at its previous path. -/
def mkMoveOp (dep : Nat) (pp : String) : SnapOp :=
  { path := pp, isDeleted := true, isSymlink := false,
    isMoveAway := true, depth := dep }

/-- The `all_operations` CTE: every write/tombstone row along the ancestor
chain, followed by the implicit move-away tombstones (the union's two
branches in source order). -/
def opsFor (db : Db) (c : Nat) : List SnapOp :=
  ((commitChain db c).flatMap (fun pr =>
    (filesOfCommit db pr.1).map (mkWriteOp pr.2)))
  ++ ((commitChain db c).flatMap (fun pr =>
    (filesOfCommit db pr.1).filterMap (fun f =>
      f.previousPath.map (mkMoveOp pr.2))))

/-- Pick the element minimizing `f`, preferring the earliest on ties (the
model's deterministic refinement of the SQL's unordered tie). -/
def pickFirstMinByG {α : Type} (f : α → Nat) : List α → Option α
  | [] => none
  | x :: xs =>
    match pickFirstMinByG f xs with
    | none => some x
    | some y => if f x ≤ f y then some x else some y

/-- Deduplicate keeping the first occurrence (JS `Set` insertion order). -/
def dedupFirstAux {α : Type} [DecidableEq α] :
    List α → List α → List α
  | _, [] => []
  | seen, x :: xs =>
    if x ∈ seen then dedupFirstAux seen xs
    else x :: dedupFirstAux (x :: seen) xs

/-- Code-point comparison of character lists (the model of the source's
`localeCompare` based path sort). -/
def listCharLe : List Char → List Char → Bool
  | [], _ => true
  | _ :: _, [] => false
  | a :: as, b :: bs =>
    if a.toNat = b.toNat then listCharLe as bs
    else decide (a.toNat < b.toNat)

def strLe (a b : String) : Bool := listCharLe a.toList b.toList

/-- An entry of a resolved snapshot (presentation metadata omitted). -/
structure SnapEntry where
  path : String
  isSymlink : Bool
deriving DecidableEq, Repr

def snapLe (a b : SnapEntry) : Prop := strLe a.path b.path = true

instance : DecidableRel snapLe := fun a b =>
  inferInstanceAs (Decidable (_ = true))

/-- `getCommitSnapshot`: for every path touched in the ancestor chain the
most recent (lowest-depth) operation, a move counting as a tombstone at the
old path; paths whose selected operation is not a deletion, optionally
restricted to a prefix, ordered by path. -/
def getCommitSnapshot (db : Db) (c : Nat) (pfx : Option String) :
    Except String (List SnapEntry) :=
  if c = 0 then .error ("commit_id must be specified")
  else match findCommit db c with
  | none => .error ("Invalid commit_id: commit does not exist")
  | some _ =>
    match (match pfx with
           | none => Except.ok (none : Option String)
           | some p => (normalizePathPfx p).map some) with
    | .error e => .error e
    | .ok np =>
      let ops := (opsFor db c).filter (fun o =>
        match np with
        | none => true
        | some pf => pf.toList.isPrefixOf o.path.toList)
      let paths := dedupFirstAux [] (ops.map (fun o => o.path))
      let sel := paths.filterMap (fun p =>
        match pickFirstMinByG (fun o => o.depth)
            (ops.filter (fun o => o.path == p)) with
        | none => none
        | some o =>
          if o.isDeleted then none
          else some { path := p, isSymlink := o.isSymlink })
      .ok (List.insertionSort snapLe sel)

/-- A snapshot entry with its content resolved via readFile. -/
structure SnapC where
  path : String
  isSymlink : Bool
  content : String
deriving DecidableEq, Repr

/-- `getCommitSnapshotWithContent`: resolve content per snapshot path via
`readFile` (absent content becomes the empty string, as `content ?? ""`). -/
def getCommitSnapshotWithContent (db : Db) (c : Nat) (pfx : Option String) :
    Except String (List SnapC) :=
  match getCommitSnapshot db c pfx with
  | .error e => .error e
  | .ok snap =>
    snap.mapM (fun e =>
      (readFile db c e.path).map (fun oc =>
        { path := e.path, isSymlink := e.isSymlink, content := oc.getD ("") }))

-- ========================================
-- Merge base (getMergeBase)
-- ========================================

/-- The `left_ancestors` / `right_ancestors` CTEs of getMergeBase: every
(ancestor, path-length) pair reachable by following parent or merged-from
links, enumerating all derivation paths as the recursive union does. -/
def ancestorDepths (db : Db) : Nat → Nat → Nat → List (Nat × Nat)
  | 0, _, _ => []
  | fuel + 1, c, d =>
    match findCommit db c with
    | none => []
    | some cm =>
      (c, d) ::
        ((match cm.parentCommitId with
          | some p => ancestorDepths db fuel p (d + 1)
          | none => []) ++
         (match cm.mergedFromCommitId with
          | some m => ancestorDepths db fuel m (d + 1)
          | none => []))

/-- All (ancestor, depth) pairs of a commit under combined edges. -/
def ancDepths (db : Db) (c : Nat) : List (Nat × Nat) :=
  ancestorDepths db (db.commits.length + 1) c 0

/-- Minimum recorded depth of an ancestor id in an ancestor list
(the `min(l.depth + r.depth)` aggregation keeps minima per side). -/
def minDepthOf (l : List (Nat × Nat)) (i : Nat) : Nat :=
  (((l.filter (fun p => p.1 == i)).map (fun p => p.2)).min?).getD 0

/-- The candidate common ancestors of the `common` CTE, in the model's
stable enumeration order (the SQL leaves the order unspecified). -/
def commonIds (db : Db) (x y : Nat) : List Nat :=
  dedupFirstAux [] (((ancDepths db x).map (fun p => p.1)).filter
    (fun i => ((ancDepths db y).map (fun p => p.1)).contains i))

/-- `total_depth` of a common ancestor: sum of the two minimal distances. -/
def mbScore (db : Db) (x y : Nat) (i : Nat) : Nat :=
  minDepthOf (ancDepths db x) i + minDepthOf (ancDepths db y) i

/-- `getMergeBase`: both commits must exist and share a repository; the
common ancestor minimizing the summed distance wins, ties resolved by the
stable enumeration (`order by total_depth asc limit 1`). -/
def getMergeBase (db : Db) (leftId rightId : Nat) : Except String Nat :=
  if leftId = 0 ∨ rightId = 0 then .error ("commit_id must be specified")
  else match findCommit db leftId with
  | none => .error ("Invalid commit_id (left): commit does not exist")
  | some lc =>
    match findCommit db rightId with
    | none => .error ("Invalid commit_id (right): commit does not exist")
    | some rc =>
      if lc.repositoryId ≠ rc.repositoryId then
        .error ("Commits must belong to the same repository")
      else
        match pickFirstMinByG (mbScore db leftId rightId)
            (commonIds db leftId rightId) with
        | some i => .ok i
        | none => .error ("No common ancestor found (unexpected)")

-- ========================================
-- Conflict detection (getConflicts)
-- ========================================

/-- A detected conflict (source interface ConflictEntry; the classification
tag is the source's string literal). -/
structure ConflictEntry where
  mergeBaseCommitId : Nat
  path : String
  baseExists : Bool
  baseIsSymlink : Bool
  baseContent : Option String
  leftExists : Bool
  leftIsSymlink : Bool
  leftContent : Option String
  rightExists : Bool
  rightIsSymlink : Bool
  rightContent : Option String
  conflictKind : String
deriving DecidableEq, Repr

def confLe (a b : ConflictEntry) : Prop := strLe a.path b.path = true

instance : DecidableRel confLe := fun a b =>
  inferInstanceAs (Decidable (_ = true))

/-- Snapshot lookup by path (`Map.get` over the snapshot maps). -/
def snapFind (s : List SnapC) (p : String) : Option SnapC :=
  s.find? (fun e => e.path == p)

/-- Build one ConflictEntry for a path when both sides changed from base and
the sides differ, with the source's classification. -/
def conflictAt (mb : Nat) (bs ls rs : List SnapC) (p : String) :
    Option ConflictEntry :=
  let base := snapFind bs p
  let lft := snapFind ls p
  let rgt := snapFind rs p
  let baseExists := base.isSome
  let leftExists := lft.isSome
  let rightExists := rgt.isSome
  let baseIsSymlink := (base.map (fun e => e.isSymlink)).getD false
  let leftIsSymlink := (lft.map (fun e => e.isSymlink)).getD false
  let rightIsSymlink := (rgt.map (fun e => e.isSymlink)).getD false
  let baseContent := base.map (fun e => e.content)
  let leftContent := lft.map (fun e => e.content)
  let rightContent := rgt.map (fun e => e.content)
  let leftChanged := leftExists != baseExists ||
    leftIsSymlink != baseIsSymlink || leftContent != baseContent
  let rightChanged := rightExists != baseExists ||
    rightIsSymlink != baseIsSymlink || rightContent != baseContent
  let sidesDiffer := leftExists != rightExists ||
    leftIsSymlink != rightIsSymlink || leftContent != rightContent
  if leftChanged && rightChanged && sidesDiffer then
    some { mergeBaseCommitId := mb, path := p,
           baseExists := baseExists, baseIsSymlink := baseIsSymlink,
           baseContent := baseContent,
           leftExists := leftExists, leftIsSymlink := leftIsSymlink,
           leftContent := leftContent,
           rightExists := rightExists, rightIsSymlink := rightIsSymlink,
           rightContent := rightContent,
           conflictKind :=
             if baseExists && (!leftExists || !rightExists) then
               "delete/modify"
             else if !baseExists && leftExists && rightExists then "add/add"
             else "modify/modify" }
  else none

/-- `getConflicts`: merge base, three snapshots-with-content, then for every
path in their union record a conflict when both sides changed from base and
the sides differ; the result is ordered by path. -/
def getConflicts (db : Db) (leftId rightId : Nat) :
    Except String (List ConflictEntry) :=
  match getMergeBase db leftId rightId with
  | .error e => .error e
  | .ok mb =>
  match getCommitSnapshotWithContent db mb none with
  | .error e => .error e
  | .ok bs =>
  match getCommitSnapshotWithContent db leftId none with
  | .error e => .error e
  | .ok ls =>
  match getCommitSnapshotWithContent db rightId none with
  | .error e => .error e
  | .ok rs =>
    let allPaths := dedupFirstAux []
      (bs.map (fun e => e.path) ++ ls.map (fun e => e.path) ++
        rs.map (fun e => e.path))
    let raw := allPaths.filterMap (fun p => conflictAt mb bs ls rs p)
    .ok (List.insertionSort confLe raw)

-- ========================================
-- Mutating operations: updateBranchHead / createCommit / writeFile
-- ========================================

/-- `updateBranchHead`: unconditional pointer update. -/
def updateBranchHead (db : Db) (branchId : Nat) (head : Nat) : Db :=
  { db with branches := db.branches.map (fun b =>
      if b.id = branchId then { b with headCommitId := some head } else b) }

/-- `createCommit` as its internal callers use it (an explicit non-null
parent, so the default-branch defaulting path is skipped): validate the
parent belongs to the repository and insert a fresh commit row. -/
def createCommit (db : Db) (repoId : Nat) (msg : String) (parent : Nat)
    (mergedFrom : Option Nat) : Except String (Nat × Db) :=
  if db.commits.any (fun c => c.id == parent && c.repositoryId == repoId)
  then
    .ok (db.nextId,
      { db with
        commits := db.commits ++
          [{ id := db.nextId, repositoryId := repoId,
             parentCommitId := some parent,
             mergedFromCommitId := mergedFrom, message := msg }],
        nextId := db.nextId + 1 })
  else
    .error
      ("Invalid parent_commit_id: must reference a commit in the same repository")

/-- `writeFile`: normalize the path (and previous path if present and
non-empty, per the JS truthiness test), apply the tombstone / symlink
canonicalization, and insert the row.  The store's foreign-key and
`(commit_id, path)` uniqueness constraints reject bad inserts as the
database would. -/
def writeFile (db : Db) (commitId : Nat) (path content : String)
    (isSymlink isDeleted : Bool) (previousPath : Option String) :
    Except String (FileRow × Db) :=
  match normalizeFilePath path with
  | .error e => .error e
  | .ok np =>
    match (match previousPath with
           | some pp =>
             if pp = "" then Except.ok (none : Option String)
             else (normalizeFilePath pp).map some
           | none => Except.ok none) with
    | .error e => .error e
    | .ok npp =>
      match (if isDeleted then Except.ok ("")
             else if isSymlink then normalizeFilePath content
             else Except.ok content) with
      | .error e => .error e
      | .ok nc =>
        if (findCommit db commitId).isNone then
          .error ("insert on table files violates foreign key constraint")
        else if db.files.any (fun f =>
            f.commitId == commitId && f.path == np) then
          .error ("duplicate key value violates unique constraint")
        else
          let row : FileRow :=
            { commitId := commitId, path := np, previousPath := npp,
              content := nc, isDeleted := isDeleted,
              isSymlink := if isDeleted then false else isSymlink }
          .ok (row, { db with files := db.files ++ [row] })

/-- A file to write during rebase/finalize (the filesToWrite records). -/
structure WriteSpec where
  path : String
  content : String
  isSymlink : Bool
  isDeleted : Bool
deriving DecidableEq, Repr

/-- `writeFiles`: sequential writes; a failure stops the loop, leaving the
earlier writes in place (the store as of the failure point). -/
def writeFilesSeq (db : Db) (commitId : Nat) :
    List WriteSpec → Except String Unit × Db
  | [] => (.ok (), db)
  | w :: rest =>
    match writeFile db commitId w.path w.content w.isSymlink w.isDeleted
        none with
    | .error e => (.error e, db)
    | .ok (_, db') => writeFilesSeq db' commitId rest

-- ========================================
-- Rebase engine (rebaseBranch)
-- ========================================

/-- Result of a rebase (source interface RebaseResult). -/
structure RebaseResult where
  operation : String
  repositoryId : Nat
  branchId : Nat
  ontoBranchId : Nat
  mergeBaseCommitId : Option Nat
  previousBranchHeadCommitId : Option Nat
  ontoHeadCommitId : Option Nat
  rebasedCommitId : Option Nat
  newBranchHeadCommitId : Option Nat
  appliedFileCount : Nat
deriving DecidableEq, Repr

/-- The error thrown when a rebase is blocked by conflicts: it interpolates
the conflict count and the two compared head commit ids. -/
def rebaseBlockedMsg (n : Nat) (l r : Nat) : String :=
  "Rebase blocked by " ++ toString n ++
    " conflicts. Use getConflicts(" ++ toString l ++ ", " ++ toString r ++
    ") to inspect."

/-- The minimal patch of a rebase: for every path of the three snapshots,
take the branch state where the branch changed from base, otherwise the onto
state, and emit a write/tombstone only where that differs from onto. -/
def rebasePatch (bs os brs : List SnapC) (allPaths : List String) :
    List WriteSpec :=
  allPaths.filterMap (fun p =>
    let base := snapFind bs p
    let onto := snapFind os p
    let br := snapFind brs p
    let branchChanged := br.isSome != base.isSome ||
      (br.map (fun e => e.isSymlink)) != (base.map (fun e => e.isSymlink)) ||
      (br.map (fun e => e.content)) != (base.map (fun e => e.content))
    let desiredExists := if branchChanged then br.isSome else onto.isSome
    let desiredIsSymlink :=
      if branchChanged then ((br.map (fun e => e.isSymlink)).getD false)
      else ((onto.map (fun e => e.isSymlink)).getD false)
    let desiredContent :=
      if branchChanged then ((br.map (fun e => e.content)).getD (""))
      else ((onto.map (fun e => e.content)).getD (""))
    let ontoExists := onto.isSome
    let ontoIsSymlink := (onto.map (fun e => e.isSymlink)).getD false
    let ontoContent := (onto.map (fun e => e.content)).getD ("")
    let needDelete := !desiredExists && ontoExists
    let needWrite := desiredExists && (!ontoExists ||
      ontoIsSymlink != desiredIsSymlink || ontoContent != desiredContent)
    if needDelete then
      some { path := p, content := "", isSymlink := false, isDeleted := true }
    else if needWrite then
      some { path := p, content := desiredContent,
             isSymlink := desiredIsSymlink, isDeleted := false }
    else none)

/-- `rebaseBranch`: the five-outcome state machine (noop /
already_up_to_date / fast_forward / conflict-blocked / rebased).  The store
is returned next to the result; error results leave it at the failure
point. -/
def rebaseBranch (db : Db) (branchId ontoBranchId : Nat)
    (message : Option String) : Except String RebaseResult × Db :=
  if branchId = 0 ∨ ontoBranchId = 0 then
    (.error ("branch_id must be specified"), db)
  else match findBranch db branchId with
  | none => (.error ("Invalid branch_id: branch does not exist"), db)
  | some br =>
    match findBranch db ontoBranchId with
    | none => (.error ("Invalid onto_branch_id: branch does not exist"), db)
    | some onto =>
      if br.repositoryId ≠ onto.repositoryId then
        (.error ("Branches must belong to the same repository"), db)
      else if branchId = ontoBranchId then
        (.ok { operation := "noop", repositoryId := br.repositoryId,
               branchId := branchId, ontoBranchId := ontoBranchId,
               mergeBaseCommitId := br.headCommitId,
               previousBranchHeadCommitId := br.headCommitId,
               ontoHeadCommitId := onto.headCommitId,
               rebasedCommitId := none,
               newBranchHeadCommitId := br.headCommitId,
               appliedFileCount := 0 }, db)
      else match br.headCommitId, onto.headCommitId with
      | some bh, some oh =>
        (match getMergeBase db bh oh with
        | .error e => (.error e, db)
        | .ok mb =>
          if mb = oh then
            (.ok { operation := "already_up_to_date",
                   repositoryId := br.repositoryId, branchId := branchId,
                   ontoBranchId := ontoBranchId,
                   mergeBaseCommitId := some mb,
                   previousBranchHeadCommitId := some bh,
                   ontoHeadCommitId := some oh, rebasedCommitId := none,
                   newBranchHeadCommitId := some bh,
                   appliedFileCount := 0 }, db)
          else if mb = bh then
            (.ok { operation := "fast_forward",
                   repositoryId := br.repositoryId, branchId := branchId,
                   ontoBranchId := ontoBranchId,
                   mergeBaseCommitId := some mb,
                   previousBranchHeadCommitId := some bh,
                   ontoHeadCommitId := some oh, rebasedCommitId := none,
                   newBranchHeadCommitId := some oh,
                   appliedFileCount := 0 },
             updateBranchHead db branchId oh)
          else match getConflicts db bh oh with
          | .error e => (.error e, db)
          | .ok conflicts =>
            if conflicts.length ≠ 0 then
              (.error (rebaseBlockedMsg conflicts.length bh oh), db)
            else match getCommitSnapshotWithContent db mb none with
            | .error e => (.error e, db)
            | .ok bs =>
              match getCommitSnapshotWithContent db oh none with
              | .error e => (.error e, db)
              | .ok os =>
                match getCommitSnapshotWithContent db bh none with
                | .error e => (.error e, db)
                | .ok brs =>
                  let allPaths := dedupFirstAux []
                    (bs.map (fun e => e.path) ++ os.map (fun e => e.path) ++
                      brs.map (fun e => e.path))
                  let filesToWrite := rebasePatch bs os brs allPaths
                  if filesToWrite.length = 0 then
                    (.ok { operation := "fast_forward",
                           repositoryId := br.repositoryId,
                           branchId := branchId,
                           ontoBranchId := ontoBranchId,
                           mergeBaseCommitId := some mb,
                           previousBranchHeadCommitId := some bh,
                           ontoHeadCommitId := some oh,
                           rebasedCommitId := none,
                           newBranchHeadCommitId := some oh,
                           appliedFileCount := 0 },
                     updateBranchHead db branchId oh)
                  else
                    match createCommit db br.repositoryId
                        (message.getD ("rebase")) oh none with
                    | .error e => (.error e, db)
                    | .ok (newId, db1) =>
                      match writeFilesSeq db1 newId filesToWrite with
                      | (.error e, db2) => (.error e, db2)
                      | (.ok _, db2) =>
                        (.ok { operation := "rebased",
                               repositoryId := br.repositoryId,
                               branchId := branchId,
                               ontoBranchId := ontoBranchId,
                               mergeBaseCommitId := some mb,
                               previousBranchHeadCommitId := some bh,
                               ontoHeadCommitId := some oh,
                               rebasedCommitId := some newId,
                               newBranchHeadCommitId := some newId,
                               appliedFileCount := filesToWrite.length },
                         updateBranchHead db2 branchId newId))
      | _, _ => (.error ("Both branches must have commits to rebase"), db)

-- ========================================
-- Merge finalizer (finalizeCommit)
-- ========================================

/-- Result of finalizing a commit (source interface FinalizeResult). -/
structure FinalizeResult where
  operation : String
  repositoryId : Nat
  targetBranchId : Option Nat
  mergeBaseCommitId : Option Nat
  previousTargetHeadCommitId : Option Nat
  sourceCommitId : Option Nat
  mergeCommitId : Nat
  newTargetHeadCommitId : Option Nat
  appliedFileCount : Nat
deriving DecidableEq, Repr

/-- The error thrown when a merge lacks resolutions: it interpolates the
count of missing conflict paths and the commit id. -/
def unresolvedMsg (n : Nat) (c : Nat) : String :=
  "Merge requires resolutions for " ++ toString n ++
    " conflict paths; insert rows into fs.files for commit " ++ toString c

/-- The per-path apply loop of finalizeCommit: skip caller-resolved paths,
take the source state where the source changed from base, otherwise the
target state, write only where that differs from the target, threading the
store and the applied-file count. -/
def applyMergePaths (cid : Nat) (bs ts ss : List SnapC)
    (userPaths : List String) :
    Db → List String → Nat → Except String Nat × Db
  | db, [], n => (.ok n, db)
  | db, p :: rest, n =>
    if userPaths.contains p then
      applyMergePaths cid bs ts ss userPaths db rest n
    else
      let base := snapFind bs p
      let target := snapFind ts p
      let source := snapFind ss p
      let sourceChanged := source.isSome != base.isSome ||
        (source.map (fun e => e.isSymlink)) !=
          (base.map (fun e => e.isSymlink)) ||
        (source.map (fun e => e.content)) != (base.map (fun e => e.content))
      let desiredExists :=
        if sourceChanged then source.isSome else target.isSome
      let desiredIsSymlink :=
        if sourceChanged then ((source.map (fun e => e.isSymlink)).getD false)
        else ((target.map (fun e => e.isSymlink)).getD false)
      let desiredContent :=
        if sourceChanged then ((source.map (fun e => e.content)).getD (""))
        else ((target.map (fun e => e.content)).getD (""))
      let targetExists := target.isSome
      let targetIsSymlink := (target.map (fun e => e.isSymlink)).getD false
      let targetContent := (target.map (fun e => e.content)).getD ("")
      let needDelete := !desiredExists && targetExists
      let needWrite := desiredExists && (!targetExists ||
        targetIsSymlink != desiredIsSymlink ||
        targetContent != desiredContent)
      if needDelete then
        match writeFile db cid p ("") false true none with
        | .error e => (.error e, db)
        | .ok (_, db') =>
          applyMergePaths cid bs ts ss userPaths db' rest (n + 1)
      else if needWrite then
        match writeFile db cid p desiredContent desiredIsSymlink false
            none with
        | .error e => (.error e, db)
        | .ok (_, db') =>
          applyMergePaths cid bs ts ss userPaths db' rest (n + 1)
      else applyMergePaths cid bs ts ss userPaths db rest n

/-- The tail of finalizeCommit once the conflict-resolution check has
passed: compute the three snapshots, apply the non-conflicting delta,
advance the target branch, and classify the outcome. -/
def finalizeApply (db : Db) (commitId : Nat) (targetBranchId : Option Nat)
    (repoId : Nat) (branchHead : Option Nat) (hb mf mb : Nat)
    (conflicts : List ConflictEntry) : Except String FinalizeResult × Db :=
  match getCommitSnapshotWithContent db mb none with
  | .error e => (.error e, db)
  | .ok bs =>
  match getCommitSnapshotWithContent db hb none with
  | .error e => (.error e, db)
  | .ok ts =>
  match getCommitSnapshotWithContent db mf none with
  | .error e => (.error e, db)
  | .ok ss =>
    let userWritePaths := (filesOfCommit db commitId).map (fun f => f.path)
    let allPaths := dedupFirstAux []
      (bs.map (fun e => e.path) ++ ts.map (fun e => e.path) ++
        ss.map (fun e => e.path) ++ userWritePaths)
    match applyMergePaths commitId bs ts ss userWritePaths db allPaths 0 with
    | (.error e, db') => (.error e, db')
    | (.ok applied, db') =>
      let db'' := match targetBranchId with
        | some tb => updateBranchHead db' tb commitId
        | none => db'
      (.ok { operation :=
               if mb = mf then "already_up_to_date"
               else if conflicts.length ≠ 0 then
                 "merged_with_conflicts_resolved"
               else "merged",
             repositoryId := repoId, targetBranchId := targetBranchId,
             mergeBaseCommitId := some mb,
             previousTargetHeadCommitId := branchHead,
             sourceCommitId := some mf, mergeCommitId := commitId,
             newTargetHeadCommitId :=
               match targetBranchId with
               | some _ => some commitId
               | none => none,
             appliedFileCount := applied }, db'')

/-- `finalizeCommit`: resolve the commit and optional target branch, enforce
the head-match precondition, fast-forward when there is no merged-from
commit, otherwise check conflict resolutions and apply the merge.  (The
source passes a possibly-null head to getMergeBase, whose falsy guard then
throws; the model's `getD 0` reproduces that path.) -/
def finalizeCommit (db : Db) (commitId : Nat) (targetBranchId : Option Nat) :
    Except String FinalizeResult × Db :=
  if commitId = 0 then (.error ("merge_commit_id must be specified"), db)
  else match findCommit db commitId with
  | none => (.error ("Invalid merge_commit_id: commit does not exist"), db)
  | some cm =>
    match (match targetBranchId with
           | some tb =>
             (match findBranch db tb with
              | none =>
                Except.error ("Invalid target_branch_id: branch does not exist")
              | some brr =>
                if brr.repositoryId ≠ cm.repositoryId then
                  Except.error
                    ("Branch and merge commit must belong to the same repository")
                else match cm.parentCommitId with
                | none =>
                  (match brr.headCommitId with
                   | some _ =>
                     Except.error
                       ("Root commit (null parent) can only be finalized on a branch with no head")
                   | none => Except.ok (none : Option Nat))
                | some pc =>
                  if brr.headCommitId ≠ some pc then
                    Except.error
                      ("Commit parent_commit_id must match the current branch head")
                  else Except.ok brr.headCommitId)
           | none => Except.ok cm.parentCommitId) with
    | .error e => (.error e, db)
    | .ok branchHead =>
      match cm.mergedFromCommitId with
      | none =>
        let db' := match targetBranchId with
          | some tb => updateBranchHead db tb commitId
          | none => db
        (.ok { operation := "fast_forward", repositoryId := cm.repositoryId,
               targetBranchId := targetBranchId,
               mergeBaseCommitId := cm.parentCommitId,
               previousTargetHeadCommitId := branchHead,
               sourceCommitId := none, mergeCommitId := commitId,
               newTargetHeadCommitId :=
                 match targetBranchId with
                 | some _ => some commitId
                 | none => none,
               appliedFileCount := 0 }, db')
      | some mf =>
        let hb := branchHead.getD 0
        match getMergeBase db hb mf with
        | .error e => (.error e, db)
        | .ok mb =>
          match getConflicts db hb mf with
          | .error e => (.error e, db)
          | .ok conflicts =>
            if 0 < conflicts.length then
              let resolutionPaths :=
                (filesOfCommit db commitId).map (fun f => f.path)
              let missing := conflicts.filter (fun c =>
                !(resolutionPaths.contains c.path))
              if 0 < missing.length then
                (.error (unresolvedMsg missing.length commitId), db)
              else
                finalizeApply db commitId targetBranchId cm.repositoryId
                  branchHead hb mf mb conflicts
            else
              finalizeApply db commitId targetBranchId cm.repositoryId
                branchHead hb mf mb conflicts

-- ========================================
-- Claim-statement definitions (the spec's characterizations, for comparison
-- against the source-derived functions)
-- ========================================

/-- The (exists, isSymlink, content) triple of a path in a snapshot: the
comparison basis the spec describes for the conflict detector. -/
def tripleAt (s : List SnapC) (p : String) : Bool × Bool × Option String :=
  ((snapFind s p).isSome,
   ((snapFind s p).map (fun e => e.isSymlink)).getD false,
   (snapFind s p).map (fun e => e.content))

/-- The spec's conflict condition: both sides changed from base and the
sides differ from each other, comparing the triple. -/
def conflictCond (bs ls rs : List SnapC) (p : String) : Prop :=
  tripleAt ls p ≠ tripleAt bs p ∧ tripleAt rs p ≠ tripleAt bs p ∧
    tripleAt ls p ≠ tripleAt rs p

/-- The spec's conflict classification: delete/modify when the path existed
at base and is missing on a side, add/add when absent at base but present on
both sides, modify/modify otherwise. -/
def classifyKind (bs ls rs : List SnapC) (p : String) : String :=
  if (tripleAt bs p).1 = true ∧
      ((tripleAt ls p).1 = false ∨ (tripleAt rs p).1 = false) then
    "delete/modify"
  else if (tripleAt bs p).1 = false ∧ (tripleAt ls p).1 = true ∧
      (tripleAt rs p).1 = true then "add/add"
  else "modify/modify"

/-- A maximal-length path that validates (4096 characters, no leading
slash). -/
def p4096 : String := String.mk (List.replicate 4096 'a')

-- ========================================
-- Concrete stores used by witnesses and counterexamples
-- ========================================

/-- Root commit 1 writes `/a`; commits 2 and 3 (both children of 1) rewrite
`/a` differently; branches 10 and 11 point at 2 and 3: a modify/modify
conflict between the branch heads. -/
def db1 : Db :=
  { commits := [⟨1, 1, none, none, "c1"⟩, ⟨2, 1, some 1, none, "c2"⟩,
                ⟨3, 1, some 1, none, "c3"⟩],
    branches := [⟨10, 1, some 2⟩, ⟨11, 1, some 3⟩],
    files := [⟨1, "/a", none, "0", false, false⟩,
              ⟨2, "/a", none, "1", false, false⟩,
              ⟨3, "/a", none, "2", false, false⟩],
    nextId := 100 }

/-- The same shape as `db1` but conflicting on `/b` instead of `/a`: the
conflict lists differ while every id (and hence every error message
interpolation) agrees. -/
def db2 : Db :=
  { commits := [⟨1, 1, none, none, "c1"⟩, ⟨2, 1, some 1, none, "c2"⟩,
                ⟨3, 1, some 1, none, "c3"⟩],
    branches := [⟨10, 1, some 2⟩, ⟨11, 1, some 3⟩],
    files := [⟨1, "/b", none, "0", false, false⟩,
              ⟨2, "/b", none, "1", false, false⟩,
              ⟨3, "/b", none, "2", false, false⟩],
    nextId := 100 }

/-- A merge diamond through merged-from edges: 4 = (parent 2, merged-from 3)
and 5 = (parent 3, merged-from 2) over siblings 2, 3 of root 1.  Both 2 and
3 are common ancestors of 4 and 5 at total distance 2: a tie. -/
def dbDiamond : Db :=
  { commits := [⟨1, 1, none, none, "r"⟩, ⟨2, 1, some 1, none, "a"⟩,
                ⟨3, 1, some 1, none, "b"⟩, ⟨4, 1, some 2, some 3, "l"⟩,
                ⟨5, 1, some 3, some 2, "rt"⟩],
    branches := [], files := [], nextId := 100 }

/-- A single commit that both writes `/a` and moves `/a` to `/b`: two
operations affect `/a` at depth 0. -/
def dbMoveTie : Db :=
  { commits := [⟨1, 1, none, none, "c1"⟩],
    branches := [],
    files := [⟨1, "/a", none, "x", false, false⟩,
              ⟨1, "/b", some ("/a"), "x", false, false⟩],
    nextId := 100 }

/-- A single commit holding one move record `/a` to `/b`. -/
def dbMove : Db :=
  { commits := [⟨1, 1, none, none, "c1"⟩],
    branches := [],
    files := [⟨1, "/b", some ("/a"), "hello", false, false⟩],
    nextId := 100 }

/-- Commit 1 writes `/a`, its child 2 tombstones `/a`. -/
def dbTomb : Db :=
  { commits := [⟨1, 1, none, none, "c1"⟩, ⟨2, 1, some 1, none, "c2"⟩],
    branches := [],
    files := [⟨1, "/a", none, "hello", false, false⟩,
              ⟨2, "/a", none, "", true, false⟩],
    nextId := 100 }

/-- Branch 10 still at root 1, branch 11 at child 2: rebasing 10 onto 11 is
a pure fast-forward. -/
def dbFF : Db :=
  { commits := [⟨1, 1, none, none, "c1"⟩, ⟨2, 1, some 1, none, "c2"⟩],
    branches := [⟨10, 1, some 1⟩, ⟨11, 1, some 2⟩],
    files := [⟨1, "/a", none, "x", false, false⟩,
              ⟨2, "/b", none, "y", false, false⟩],
    nextId := 100 }

/-- A merge commit 4 = (parent 2, merged-from 3) over the `db1` conflict
shape, with target branch 20 at commit 2 and no resolution rows in 4. -/
def dbMerge1 : Db :=
  { commits := [⟨1, 1, none, none, "c1"⟩, ⟨2, 1, some 1, none, "c2"⟩,
                ⟨3, 1, some 1, none, "c3"⟩, ⟨4, 1, some 2, some 3, "m"⟩],
    branches := [⟨20, 1, some 2⟩],
    files := [⟨1, "/a", none, "0", false, false⟩,
              ⟨2, "/a", none, "1", false, false⟩,
              ⟨3, "/a", none, "2", false, false⟩],
    nextId := 100 }

/-- The same shape as `dbMerge1` but conflicting on `/b`. -/
def dbMerge2 : Db :=
  { commits := [⟨1, 1, none, none, "c1"⟩, ⟨2, 1, some 1, none, "c2"⟩,
                ⟨3, 1, some 1, none, "c3"⟩, ⟨4, 1, some 2, some 3, "m"⟩],
    branches := [⟨20, 1, some 2⟩],
    files := [⟨1, "/b", none, "0", false, false⟩,
              ⟨2, "/b", none, "1", false, false⟩,
              ⟨3, "/b", none, "2", false, false⟩],
    nextId := 100 }

-- Concrete values produced by the engine on the stores above, used by
-- witnesses (the conflict entry lists, snapshots and results the operations
-- return).

def c1L : List ConflictEntry :=
  [{ mergeBaseCommitId := 1, path := "/a",
     baseExists := true, baseIsSymlink := false, baseContent := some ("0"),
     leftExists := true, leftIsSymlink := false, leftContent := some ("1"),
     rightExists := true, rightIsSymlink := false, rightContent := some ("2"),
     conflictKind := "modify/modify" }]

def c2L : List ConflictEntry :=
  [{ mergeBaseCommitId := 1, path := "/a",
     baseExists := true, baseIsSymlink := false, baseContent := some ("0"),
     leftExists := true, leftIsSymlink := false, leftContent := some ("1"),
     rightExists := true, rightIsSymlink := false, rightContent := some ("2"),
     conflictKind := "modify/modify" }]

def c5bs : List SnapC := [{ path := "/a", isSymlink := false, content := "0" }]

def c5ls : List SnapC := [{ path := "/a", isSymlink := false, content := "1" }]

def c5rs : List SnapC := [{ path := "/a", isSymlink := false, content := "2" }]

def c7r : RebaseResult :=
  { operation := "fast_forward", repositoryId := 1, branchId := 10,
    ontoBranchId := 11, mergeBaseCommitId := some 1,
    previousBranchHeadCommitId := some 1, ontoHeadCommitId := some 2,
    rebasedCommitId := none, newBranchHeadCommitId := some 2,
    appliedFileCount := 0 }

-- ========================================
-- Lemmas: path normalization
-- ========================================

theorem replacePairs_length_le (s : List Char) :
    (replacePairs s).length ≤ s.length := by
  induction s using replacePairs.induct with
  | case1 => simp [replacePairs]
  | case2 c => simp [replacePairs]
  | case3 a b rest h ih =>
    rw [replacePairs, if_pos h]
    simp only [List.length_cons]
    omega
  | case4 a b rest h ih =>
    rw [replacePairs, if_neg h]
    simp only [List.length_cons] at ih ⊢
    omega

theorem replacePairs_length_lt (s : List Char)
    (h : hasDoubleSlash s = true) : (replacePairs s).length < s.length := by
  induction s using replacePairs.induct with
  | case1 => simp [hasDoubleSlash] at h
  | case2 c => simp [hasDoubleSlash] at h
  | case3 a b rest hc ih =>
    rw [replacePairs, if_pos hc]
    have := replacePairs_length_le rest
    simp only [List.length_cons]
    omega
  | case4 a b rest hc ih =>
    rw [replacePairs, if_neg hc]
    rw [hasDoubleSlash] at h
    simp only [Bool.or_eq_true] at h
    rcases h with h | h
    · exact absurd h hc
    · have := ih h
      simp only [List.length_cons] at this ⊢
      omega

theorem mem_replacePairs {c : Char} {s : List Char}
    (h : c ∈ replacePairs s) : c ∈ s := by
  induction s using replacePairs.induct with
  | case1 => simpa [replacePairs] using h
  | case2 d => simpa [replacePairs] using h
  | case3 a b rest hc ih =>
    rw [replacePairs, if_pos hc] at h
    simp only [Bool.and_eq_true, decide_eq_true_eq] at hc
    rcases List.mem_cons.mp h with h | h
    · simp [h, hc.1]
    · simp [ih h]
  | case4 a b rest hc ih =>
    rw [replacePairs, if_neg hc] at h
    rcases List.mem_cons.mp h with h | h
    · simp [h]
    · have := ih h
      simp only [List.mem_cons] at this ⊢
      tauto

theorem replacePairs_cons (a : Char) (l : List Char) :
    ∃ t, replacePairs (a :: l) = a :: t := by
  cases l with
  | nil => exact ⟨[], rfl⟩
  | cons b rest =>
    by_cases h : (a = '/' && b = '/') = true
    · refine ⟨replacePairs rest, ?_⟩
      rw [replacePairs, if_pos h]
      simp only [Bool.and_eq_true, decide_eq_true_eq] at h
      rw [h.1]
    · exact ⟨replacePairs (b :: rest), by rw [replacePairs, if_neg h]⟩

theorem collapseFuel_noDouble (fuel : Nat) :
    ∀ s : List Char, s.length ≤ fuel →
      hasDoubleSlash (collapseFuel fuel s) = false := by
  induction fuel with
  | zero =>
    intro s hs
    have : s = [] := List.length_eq_zero.mp (Nat.le_zero.mp hs)
    subst this; rfl
  | succ n ih =>
    intro s hs
    rw [collapseFuel]
    by_cases h : hasDoubleSlash s = true
    · rw [if_pos h]
      exact ih _ (by have := replacePairs_length_lt s h; omega)
    · rw [if_neg h]
      exact Bool.not_eq_true _ ▸ h

theorem collapseFuel_fix (fuel : Nat) (s : List Char)
    (h : hasDoubleSlash s = false) : collapseFuel fuel s = s := by
  cases fuel with
  | zero => rfl
  | succ n => rw [collapseFuel, if_neg (by simp [h])]

theorem mem_collapseFuel (fuel : Nat) :
    ∀ s : List Char, ∀ c ∈ collapseFuel fuel s, c ∈ s := by
  induction fuel with
  | zero => intro s c hc; exact hc
  | succ n ih =>
    intro s c hc
    rw [collapseFuel] at hc
    by_cases h : hasDoubleSlash s = true
    · rw [if_pos h] at hc
      exact mem_replacePairs (ih _ c hc)
    · rwa [if_neg h] at hc

theorem collapseFuel_cons (fuel : Nat) :
    ∀ l : List Char, ∃ t, collapseFuel fuel ('/' :: l) = '/' :: t := by
  induction fuel with
  | zero => intro l; exact ⟨l, rfl⟩
  | succ n ih =>
    intro l
    rw [collapseFuel]
    by_cases h : hasDoubleSlash ('/' :: l) = true
    · rw [if_pos h]
      obtain ⟨t, ht⟩ := replacePairs_cons '/' l
      rw [ht]
      exact ih t
    · rw [if_neg h]; exact ⟨l, rfl⟩

theorem hasDoubleSlash_dropLast (l : List Char)
    (h : hasDoubleSlash l.dropLast = true) : hasDoubleSlash l = true := by
  induction l using hasDoubleSlash.induct with
  | case1 => simpa using h
  | case2 c => simpa using h
  | case3 a b rest ih =>
    cases rest with
    | nil => simp [List.dropLast, hasDoubleSlash] at h
    | cons c rs =>
      simp only [List.dropLast_cons₂] at h
      rw [hasDoubleSlash.eq_3] at h
      rw [hasDoubleSlash.eq_3]
      simp only [Bool.or_eq_true] at h ⊢
      rcases h with h | h
      · exact Or.inl h
      · exact Or.inr (ih (by simp only [List.dropLast_cons₂]; exact h))

theorem hasDoubleSlash_append_pair (l : List Char) :
    hasDoubleSlash (l ++ ['/', '/']) = true := by
  induction l with
  | nil => rfl
  | cons a l ih =>
    cases l with
    | nil => simp [hasDoubleSlash]
    | cons b l' =>
      rw [List.cons_append, List.cons_append, hasDoubleSlash.eq_3]
      simp only [Bool.or_eq_true]
      exact Or.inr (by simpa using ih)

theorem dropWhile_ne_nil_of_exists {p : Char → Bool} {l : List Char}
    (h : ∃ c ∈ l, p c = false) : l.dropWhile p ≠ [] := by
  induction l with
  | nil => simp at h
  | cons a l ih =>
    rw [List.dropWhile]
    by_cases ha : p a = true
    · rw [ha]
      simp only [List.mem_cons] at h
      obtain ⟨c, hc, hpc⟩ := h
      rcases hc with rfl | hc
      · rw [ha] at hpc; cases hpc
      · exact ih ⟨c, hc, hpc⟩
    · rw [Bool.not_eq_true] at ha
      rw [ha]
      simp

theorem trimChars_ne_nil {a : Char} (l : List Char)
    (ha : isJsWs a = false) : trimChars (a :: l) ≠ [] := by
  unfold trimChars
  have h1 : (a :: l).dropWhile isJsWs = a :: l := by
    rw [List.dropWhile]; rw [ha]
  rw [h1]
  intro hcon
  have h2 : ((a :: l).reverse.dropWhile isJsWs) = [] := by
    have := congrArg List.reverse hcon
    simpa using this
  have h3 : (a :: l).reverse.dropWhile isJsWs ≠ [] := by
    apply dropWhile_ne_nil_of_exists
    exact ⟨a, by simp, ha⟩
  exact h3 h2

theorem map_id_of {f : Char → Char} {l : List Char}
    (h : ∀ c ∈ l, f c = c) : l.map f = l := by
  induction l with
  | nil => rfl
  | cons a l ih =>
    rw [List.map_cons, h a (by simp), ih (fun c hc => h c (by simp [hc]))]

theorem forceLeadingSlash_head (s : List Char) :
    ∃ t, forceLeadingSlash s = '/' :: t := by
  unfold forceLeadingSlash
  split
  · next l => exact ⟨l, rfl⟩
  · next => exact ⟨s, rfl⟩

theorem stripTrailingSlash_cons (v : List Char) :
    ∃ w, stripTrailingSlash ('/' :: v) = '/' :: w := by
  unfold stripTrailingSlash
  by_cases h :
      (decide (('/' :: v).length > 1) && (('/' :: v).getLast? == some '/'))
        = true
  · rw [if_pos h]
    simp only [Bool.and_eq_true, decide_eq_true_eq] at h
    cases v with
    | nil => simp at h
    | cons x v' => exact ⟨(x :: v').dropLast, by rw [List.dropLast_cons₂]⟩
  · rw [if_neg h]; exact ⟨v, rfl⟩

theorem normalizeCore_head (cs : List Char) :
    ∃ t, normalizeCore cs = '/' :: t := by
  unfold normalizeCore
  obtain ⟨u, hu⟩ := forceLeadingSlash_head (cs.map slashify)
  rw [hu]
  unfold collapseSlashes
  obtain ⟨v, hv⟩ := collapseFuel_cons ('/' :: u).length u
  rw [hv]
  exact stripTrailingSlash_cons v

theorem normalizeCore_noDouble (cs : List Char) :
    hasDoubleSlash (normalizeCore cs) = false := by
  unfold normalizeCore
  have hnd : hasDoubleSlash
      (collapseSlashes (forceLeadingSlash (cs.map slashify))) = false :=
    collapseFuel_noDouble _ _ (Nat.le_refl _)
  unfold stripTrailingSlash
  split
  · cases hx : hasDoubleSlash
        (collapseSlashes (forceLeadingSlash (cs.map slashify))).dropLast with
    | false => rfl
    | true => rw [hasDoubleSlash_dropLast _ hx] at hnd; cases hnd
  · exact hnd

theorem normalizeCore_trailing (cs : List Char) :
    ¬(1 < (normalizeCore cs).length ∧
      (normalizeCore cs).getLast? = some '/') := by
  have hnd : hasDoubleSlash
      (collapseSlashes (forceLeadingSlash (cs.map slashify))) = false :=
    collapseFuel_noDouble _ _ (Nat.le_refl _)
  unfold normalizeCore stripTrailingSlash
  set n3 := collapseSlashes (forceLeadingSlash (cs.map slashify)) with hn3
  split
  · next hcond =>
    simp only [Bool.and_eq_true, decide_eq_true_eq, beq_iff_eq] at hcond
    rintro ⟨hl, hlast⟩
    have hd_ne : n3.dropLast ≠ [] := by
      intro hx; rw [hx] at hl; simp at hl
    have hn3_ne : n3 ≠ [] := by
      intro hx; rw [hx] at hcond; simp at hcond
    have hg1 : n3.dropLast.getLast hd_ne = '/' := by
      rw [List.getLast?_eq_getLast _ hd_ne, Option.some_inj] at hlast
      exact hlast
    have e1 : n3.dropLast.dropLast ++ ['/'] = n3.dropLast := by
      have := List.dropLast_append_getLast hd_ne
      rwa [hg1] at this
    have e2 : n3.dropLast ++ ['/'] = n3 := by
      have := List.dropLast_append_getLast hn3_ne
      have hg : n3.getLast hn3_ne = '/' := by
        have := hcond.2
        rwa [List.getLast?_eq_getLast _ hn3_ne, Option.some_inj] at this
      rwa [hg] at this
    have : n3 = n3.dropLast.dropLast ++ ['/', '/'] := by
      rw [← e2, ← e1]
      simp
    rw [this, hasDoubleSlash_append_pair] at hnd
    cases hnd
  · next hcond =>
    rintro ⟨hl, hlast⟩
    apply hcond
    simp only [Bool.and_eq_true, decide_eq_true_eq, beq_iff_eq]
    exact ⟨hl, hlast⟩

theorem mem_normalizeCore {c : Char} {cs : List Char}
    (h : c ∈ normalizeCore cs) : c = '/' ∨ ∃ c0 ∈ cs, c = slashify c0 := by
  unfold normalizeCore at h
  have h1 : c ∈ collapseSlashes (forceLeadingSlash (cs.map slashify)) := by
    unfold stripTrailingSlash at h
    split at h
    · exact (List.dropLast_sublist _).mem h
    · exact h
  have h2 : c ∈ forceLeadingSlash (cs.map slashify) :=
    mem_collapseFuel _ _ c h1
  have h3 : c ∈ '/' :: cs.map slashify := by
    unfold forceLeadingSlash at h2
    split at h2
    · exact List.mem_cons_of_mem _ h2
    · exact h2
  rcases List.mem_cons.mp h3 with h4 | h4
  · exact Or.inl h4
  · obtain ⟨c0, hc0, hc⟩ := List.mem_map.mp h4
    exact Or.inr ⟨c0, hc0, hc.symm⟩

theorem slashify_ne_backslash (c : Char) : slashify c ≠ '\\' := by
  unfold slashify
  split
  · decide
  · next h => exact h

theorem isCtl_slashify {c : Char} (h : isCtl c = false) :
    isCtl (slashify c) = false := by
  unfold slashify
  split
  · decide
  · exact h

theorem isWinBad_slashify {c : Char} (h : isWinBad c = false) :
    isWinBad (slashify c) = false := by
  unfold slashify
  split
  · decide
  · exact h

theorem normalizeCore_fix (l : List Char)
    (hbs : ∀ c ∈ l, c ≠ '\\')
    (hhead : ∃ t, l = '/' :: t)
    (hnd : hasDoubleSlash l = false)
    (htr : ¬(1 < l.length ∧ l.getLast? = some '/')) :
    normalizeCore l = l := by
  obtain ⟨t, rfl⟩ := hhead
  unfold normalizeCore
  have hmap : ('/' :: t).map slashify = '/' :: t :=
    map_id_of (fun c hc => by
      unfold slashify
      split
      · next he => exact absurd he (hbs c hc)
      · rfl)
  rw [hmap]
  have hforce : forceLeadingSlash ('/' :: t) = '/' :: t := rfl
  rw [hforce]
  have hcol : collapseSlashes ('/' :: t) = '/' :: t :=
    collapseFuel_fix _ _ hnd
  rw [hcol]
  unfold stripTrailingSlash
  rw [if_neg]
  intro hcond
  simp only [Bool.and_eq_true, decide_eq_true_eq, beq_iff_eq] at hcond
  exact htr ⟨hcond.1, hcond.2⟩

theorem validatePath_ok_iff (p : String) :
    validatePath p = .ok () ↔
      (trimChars p.toList).length ≠ 0 ∧ p.toList.length ≤ 4096 ∧
        p.toList.any isCtl = false ∧ p.toList.any isWinBad = false := by
  unfold validatePath
  dsimp only
  split_ifs with h1 h2 h3 h4
  · constructor
    · intro h; cases h
    · rintro ⟨hne, -, -, -⟩; exact absurd h1 hne
  · constructor
    · intro h; cases h
    · intro h; omega
  · constructor
    · intro h; cases h
    · rintro ⟨-, -, hc, -⟩; rw [h3] at hc; cases hc
  · constructor
    · intro h; cases h
    · rintro ⟨-, -, -, hw⟩; rw [h4] at hw; cases hw
  · constructor
    · intro _
      refine ⟨h1, by omega, ?_, ?_⟩
      · cases hx : p.toList.any isCtl with
        | false => rfl
        | true => exact absurd hx h3
      · cases hx : p.toList.any isWinBad with
        | false => rfl
        | true => exact absurd hx h4
    · intro _; rfl

theorem strMk_toList (s : String) : String.mk s.toList = s := by
  cases s; rfl

theorem toList_strMk (l : List Char) : (String.mk l).toList = l := rfl

theorem strMk_length (l : List Char) : (String.mk l).length = l.length := rfl

theorem validate_normalized (p : String) (hv : validatePath p = .ok ())
    (hlen : (normalizeCore p.toList).length ≤ 4096) :
    validatePath (String.mk (normalizeCore p.toList)) = .ok () := by
  obtain ⟨-, -, hctl, hwin⟩ := (validatePath_ok_iff p).mp hv
  rw [validatePath_ok_iff]
  rw [toList_strMk]
  obtain ⟨t, ht⟩ := normalizeCore_head p.toList
  refine ⟨?_, hlen, ?_, ?_⟩
  · rw [ht]
    intro hcon
    exact trimChars_ne_nil t (by decide) (List.length_eq_zero.mp hcon)
  · rw [List.any_eq_false]
    intro c hc
    rcases mem_normalizeCore hc with rfl | ⟨c0, hc0, rfl⟩
    · decide
    · rw [isCtl_slashify (by
        rw [List.any_eq_false] at hctl
        have := hctl c0 hc0
        cases hx : isCtl c0 with
        | false => rfl
        | true => exact absurd hx this)]
      simp
  · rw [List.any_eq_false]
    intro c hc
    rcases mem_normalizeCore hc with rfl | ⟨c0, hc0, rfl⟩
    · decide
    · rw [isWinBad_slashify (by
        rw [List.any_eq_false] at hwin
        have := hwin c0 hc0
        cases hx : isWinBad c0 with
        | false => rfl
        | true => exact absurd hx this)]
      simp

theorem normalizePath_ok {p q : String} (h : normalizePath p = .ok q) :
    validatePath p = .ok () ∧ q = String.mk (normalizeCore p.toList) ∧
      (normalizeCore p.toList).length ≤ 4096 := by
  unfold normalizePath at h
  cases hv : validatePath p with
  | error e => rw [hv] at h; cases h
  | ok u =>
    cases u
    rw [hv] at h
    simp only at h
    split at h
    · cases h
    · next hlen =>
      cases h
      exact ⟨rfl, rfl, by omega⟩


-- Lemmas: ancestor chains and snapshot operations

theorem chainFrom_depth_ge (db : Db) :
    ∀ (fuel c d : Nat), ∀ e ∈ chainFrom db fuel c d, d ≤ e.2 := by
  intro fuel
  induction fuel with
  | zero => intro c d e he; simp [chainFrom] at he
  | succ n ih =>
    intro c d e he
    rw [chainFrom] at he
    cases hfc : findCommit db c with
    | none => rw [hfc] at he; simp at he
    | some cm =>
      rw [hfc] at he
      rcases List.mem_cons.mp he with rfl | he
      · exact Nat.le_refl _
      · cases hp : cm.parentCommitId with
        | none => rw [hp] at he; simp at he
        | some pp =>
          rw [hp] at he
          have := ih pp (d + 1) e he
          omega

theorem chainFrom_pairwise (db : Db) :
    ∀ (fuel c d : Nat),
      (chainFrom db fuel c d).Pairwise (fun a b => a.2 < b.2) := by
  intro fuel
  induction fuel with
  | zero => intro c d; simp [chainFrom]
  | succ n ih =>
    intro c d
    rw [chainFrom]
    cases hfc : findCommit db c with
    | none => simp
    | some cm =>
      refine List.Pairwise.cons ?_ ?_
      · intro e he
        cases hp : cm.parentCommitId with
        | none => rw [hp] at he; simp at he
        | some pp =>
          rw [hp] at he
          have := chainFrom_depth_ge db n pp (d + 1) e he
          omega
      · cases hp : cm.parentCommitId with
        | none => simp
        | some pp => exact ih pp (d + 1)

theorem filter_pair_le_one (l : List FileRow)
    (h : (l.map (fun f => (f.commitId, f.path))).Nodup)
    (cid : Nat) (pth : String) :
    (l.filter (fun f => f.commitId == cid && f.path == pth)).length ≤ 1 := by
  induction l with
  | nil => simp
  | cons a l ih =>
    rw [List.map_cons, List.nodup_cons] at h
    rw [List.filter_cons]
    by_cases ha : (a.commitId == cid && a.path == pth) = true
    · rw [if_pos ha]
      simp only [Bool.and_eq_true, beq_iff_eq] at ha
      have hrest : l.filter (fun f => f.commitId == cid && f.path == pth)
          = [] := by
        rw [List.filter_eq_nil_iff]
        intro b hb
        simp only [Bool.and_eq_true, beq_iff_eq, not_and]
        intro hbc hbp
        exact h.1 (List.mem_map.mpr
          ⟨b, hb, by rw [hbc, hbp, ha.1, ha.2]⟩)
      rw [hrest]
      simp
    · rw [if_neg ha]
      exact ih h.2

/-- Claim C3 (amended): in snapshot and read resolution, at most one
write/tombstone operation (a row whose own path is the queried path) exists
at each ancestor depth, by the (commit_id, path) uniqueness of fs.files and
the linear chain assigning one commit per depth.  Move-away operations are
excluded: a single commit can contribute a write and a move-away on the same
path at the same depth (see the counterexample). -/
theorem C3_write_ops_unique_per_depth (db : Db)
    (h : (db.files.map (fun f => (f.commitId, f.path))).Nodup)
    (c : Nat) (p : String) (d : Nat) :
    ((opsFor db c).filter
      (fun o => o.path == p && o.depth == d && !o.isMoveAway)).length ≤ 1 := by
  unfold opsFor
  rw [List.filter_append, List.length_append]
  have hmove : (((commitChain db c).flatMap (fun pr =>
      (filesOfCommit db pr.1).filterMap (fun f =>
        f.previousPath.map (mkMoveOp pr.2)))).filter
      (fun o => o.path == p && o.depth == d && !o.isMoveAway)).length = 0 := by
    rw [List.length_eq_zero, List.filter_eq_nil_iff]
    intro o ho
    obtain ⟨pr, hpr, ho⟩ := List.mem_flatMap.mp ho
    obtain ⟨f, hf, ho⟩ := List.mem_filterMap.mp ho
    cases hp : f.previousPath with
    | none => rw [hp] at ho; cases ho
    | some pp =>
      rw [hp] at ho
      cases ho
      simp [mkMoveOp]
  rw [hmove, Nat.add_zero]
  have haux : ∀ (ch : List (Nat × Nat)),
      ch.Pairwise (fun a b => a.2 < b.2) →
      ((ch.flatMap (fun pr =>
        (filesOfCommit db pr.1).map (mkWriteOp pr.2))).filter
        (fun o => o.path == p && o.depth == d && !o.isMoveAway)).length
        ≤ 1 := by
    intro ch
    induction ch with
    | nil => simp
    | cons pr ch ih =>
      intro hpw
      rw [List.pairwise_cons] at hpw
      rw [List.flatMap_cons, List.filter_append, List.length_append]
      have htail0 : pr.2 = d →
          ((ch.flatMap (fun pr' =>
            (filesOfCommit db pr'.1).map (mkWriteOp pr'.2))).filter
            (fun o => o.path == p && o.depth == d && !o.isMoveAway)).length
            = 0 := by
        intro hd
        rw [List.length_eq_zero, List.filter_eq_nil_iff]
        intro o ho
        obtain ⟨pr', hpr', ho⟩ := List.mem_flatMap.mp ho
        obtain ⟨f, hf, rfl⟩ := List.mem_map.mp ho
        have hlt : pr.2 < pr'.2 := hpw.1 pr' hpr'
        have hdep : (pr'.2 == d) = false := by
          rw [beq_eq_false_iff_ne]
          omega
        simp [mkWriteOp, hdep]
      by_cases hd : pr.2 = d
      · rw [htail0 hd, Nat.add_zero]
        rw [List.filter_map, List.length_map]
        have hcongr : (filesOfCommit db pr.1).filter
            ((fun o => o.path == p && o.depth == d && !o.isMoveAway) ∘
              mkWriteOp pr.2)
            = (filesOfCommit db pr.1).filter
              (fun f => f.commitId == pr.1 && f.path == p) := by
          apply List.filter_congr
          intro f hf
          unfold filesOfCommit at hf
          have hcid := (List.mem_filter.mp hf).2
          simp only [Function.comp, mkWriteOp, hd]
          simp only [beq_self_eq_true, Bool.not_false, Bool.and_true]
          rw [hcid]
          simp [Bool.and_comm]
        rw [hcongr]
        unfold filesOfCommit
        rw [List.filter_filter]
        have hcg2 : db.files.filter
            (fun f => (f.commitId == pr.1 && f.path == p) &&
              (f.commitId == pr.1))
            = db.files.filter (fun f => f.commitId == pr.1 && f.path == p)
            := by
          apply List.filter_congr
          intro f _
          by_cases h1 : (f.commitId == pr.1) = true <;>
            by_cases h2 : (f.path == p) = true <;> simp [h1, h2]
        rw [hcg2]
        exact filter_pair_le_one db.files h pr.1 p
      · have hblock0 : (((filesOfCommit db pr.1).map
            (mkWriteOp pr.2)).filter
            (fun o => o.path == p && o.depth == d && !o.isMoveAway)).length
            = 0 := by
          rw [List.length_eq_zero, List.filter_eq_nil_iff]
          intro o ho
          obtain ⟨f, hf, rfl⟩ := List.mem_map.mp ho
          have hdep : (pr.2 == d) = false := beq_eq_false_iff_ne.mpr hd
          simp [mkWriteOp, hdep]
        rw [hblock0, Nat.zero_add]
        exact ih hpw.2
  exact haux (commitChain db c) (chainFrom_pairwise db _ c 0)

-- Lemmas: readFile resolution

theorem commitChain_cons (db : Db) (c : Nat) (cm : CommitRow)
    (hfc : findCommit db c = some cm) :
    commitChain db c = (c, 0) ::
      (match cm.parentCommitId with
       | some p => chainFrom db db.commits.length p 1
       | none => []) := by
  unfold commitChain
  rw [chainFrom, hfc]

theorem matchingEntries_head_block (db : Db) (c : Nat) (cm : CommitRow)
    (hfc : findCommit db c = some cm) (p : String) :
    ∃ rest, matchingEntries db c p =
      ((db.files.filter (fun f =>
        f.commitId == c && (f.path == p || f.previousPath == some p))).map
        (fun f => ((0 : Nat), f))) ++ rest := by
  unfold matchingEntries
  rw [commitChain_cons db c cm hfc, List.flatMap_cons]
  exact ⟨_, rfl⟩

theorem pairwise_entries_aux (db : Db) (p : String) :
    ∀ ch : List (Nat × Nat), ch.Pairwise (fun a b => a.2 < b.2) →
      ((ch.flatMap (fun pr =>
        (db.files.filter (fun f =>
          f.commitId == pr.1 &&
            (f.path == p || f.previousPath == some p))).map
          (fun f => (pr.2, f)))).Pairwise
        (fun a b : Nat × FileRow => a.1 ≤ b.1)) := by
  intro ch
  induction ch with
  | nil => simp
  | cons pr ch ih =>
    intro hpw
    rw [List.pairwise_cons] at hpw
    rw [List.flatMap_cons, List.pairwise_append]
    refine ⟨?_, ih hpw.2, ?_⟩
    · have hconst : ∀ (l : List FileRow),
          ((l.map (fun f => (pr.2, f))).Pairwise
            (fun a b : Nat × FileRow => a.1 ≤ b.1)) := by
        intro l
        induction l with
        | nil => simp
        | cons a l ihl =>
          rw [List.map_cons]
          refine List.Pairwise.cons ?_ ihl
          intro e he
          obtain ⟨f, hf, rfl⟩ := List.mem_map.mp he
          exact Nat.le_refl _
      exact hconst _
    · intro x hx y hy
      obtain ⟨f, hf, rfl⟩ := List.mem_map.mp hx
      obtain ⟨pr2, hpr2, hy2⟩ := List.mem_flatMap.mp hy
      obtain ⟨f2, hf2, rfl⟩ := List.mem_map.mp hy2
      exact Nat.le_of_lt (hpw.1 pr2 hpr2)

theorem matchingEntries_pairwise (db : Db) (c : Nat) (p : String) :
    (matchingEntries db c p).Pairwise
      (fun a b : Nat × FileRow => a.1 ≤ b.1) :=
  pairwise_entries_aux db p (commitChain db c) (chainFrom_pairwise db _ c 0)

/-- Claim C8: if the entry readFile selects for a path (the head of the
depth-ordered matching entries, hence of minimal depth among them) is a
tombstone, readFile returns absent, regardless of any non-deleted writes at
deeper ancestors. -/
theorem C8_tombstone_reads_absent (db : Db) (c : Nat) (cm : CommitRow)
    (p np : String) (d : Nat) (f : FileRow)
    (hc0 : c ≠ 0)
    (hfc : findCommit db c = some cm)
    (hnp : normalizePath p = .ok np)
    (hsel : (matchingEntries db c np).head? = some (d, f))
    (hdel : f.isDeleted = true) :
    readFile db c p = .ok none ∧
      ∀ e ∈ matchingEntries db c np, d ≤ e.1 := by
  constructor
  · unfold readFile
    rw [if_neg hc0]
    simp only [hfc, hnp, hsel]
    rw [if_pos hdel]
  · intro e he
    have hpw := matchingEntries_pairwise db c np
    cases hme : matchingEntries db c np with
    | nil => rw [hme] at hsel; cases hsel
    | cons a t =>
      rw [hme] at hsel
      simp only [List.head?_cons, Option.some_inj] at hsel
      rw [hme] at hpw he
      rw [List.pairwise_cons] at hpw
      rcases List.mem_cons.mp he with rfl | he
      · rw [hsel]
      · have := hpw.1 e he
        rw [hsel] at this
        exact this

/-- Claim C6 (amended): if commit C contains a non-deleted delta at path B
with previousPath A (A and B distinct, both normalized), and no other delta
of C affects the two paths (no row at path A, no other move away from B, and
the row at B unique), then readFile(C, A) is absent and readFile(C, B)
returns the written content. -/
theorem C6_rename_semantics_no_other_delta (db : Db) (cid : Nat) (cm : CommitRow)
    (row : FileRow) (A B : String)
    (hc0 : cid ≠ 0) (hfc : findCommit db cid = some cm)
    (hrow : row ∈ db.files) (hrc : row.commitId = cid)
    (hrp : row.path = B) (hprev : row.previousPath = some A)
    (hdel : row.isDeleted = false) (hAB : A ≠ B)
    (hnA : normalizePath A = .ok A) (hnB : normalizePath B = .ok B)
    (hnoA : ∀ f ∈ db.files, f.commitId = cid → f.path ≠ A)
    (hnoB : ∀ f ∈ db.files, f.commitId = cid → f.previousPath ≠ some B)
    (huniq : ∀ f ∈ db.files, f.commitId = cid → f.path = B → f = row) :
    readFile db cid A = .ok none ∧
      readFile db cid B = .ok (some row.content) := by
  constructor
  · unfold readFile
    rw [if_neg hc0]
    simp only [hfc, hnA]
    obtain ⟨rest, hdec⟩ := matchingEntries_head_block db cid cm hfc A
    have hrmem : row ∈ db.files.filter (fun f =>
        f.commitId == cid && (f.path == A || f.previousPath == some A)) := by
      rw [List.mem_filter]
      refine ⟨hrow, ?_⟩
      rw [hrc, hprev]
      simp
    cases hb : db.files.filter (fun f =>
        f.commitId == cid && (f.path == A || f.previousPath == some A)) with
    | nil => rw [hb] at hrmem; cases hrmem
    | cons f0 t0 =>
      rw [hb] at hdec
      rw [hdec]
      simp only [List.map_cons, List.cons_append, List.head?_cons]
      have hf0 : f0 ∈ db.files.filter (fun f =>
          f.commitId == cid &&
            (f.path == A || f.previousPath == some A)) := by
        rw [hb]; exact List.mem_cons_self _ _
      rw [List.mem_filter] at hf0
      have hprops := hf0.2
      simp only [Bool.and_eq_true, Bool.or_eq_true, beq_iff_eq] at hprops
      have hf0path : f0.path ≠ A := hnoA f0 hf0.1 hprops.1
      have hf0prev : f0.previousPath = some A := by
        rcases hprops.2 with h | h
        · exact absurd h hf0path
        · exact h
      by_cases hf0del : f0.isDeleted = true
      · rw [if_pos hf0del]
      · rw [if_neg hf0del]
        rw [if_pos]
        rw [hf0prev]
        simp [hf0path]
  · unfold readFile
    rw [if_neg hc0]
    simp only [hfc, hnB]
    obtain ⟨rest, hdec⟩ := matchingEntries_head_block db cid cm hfc B
    have hrmem : row ∈ db.files.filter (fun f =>
        f.commitId == cid && (f.path == B || f.previousPath == some B)) := by
      rw [List.mem_filter]
      refine ⟨hrow, ?_⟩
      rw [hrc, hrp]
      simp
    cases hb : db.files.filter (fun f =>
        f.commitId == cid && (f.path == B || f.previousPath == some B)) with
    | nil => rw [hb] at hrmem; cases hrmem
    | cons f0 t0 =>
      rw [hb] at hdec
      rw [hdec]
      simp only [List.map_cons, List.cons_append, List.head?_cons]
      have hf0 : f0 ∈ db.files.filter (fun f =>
          f.commitId == cid &&
            (f.path == B || f.previousPath == some B)) := by
        rw [hb]; exact List.mem_cons_self _ _
      rw [List.mem_filter] at hf0
      have hprops := hf0.2
      simp only [Bool.and_eq_true, Bool.or_eq_true, beq_iff_eq] at hprops
      have hf0row : f0 = row := by
        rcases hprops.2 with h | h
        · exact huniq f0 hf0.1 hprops.1 h
        · exact absurd h (hnoB f0 hf0.1 hprops.1)
      subst hf0row
      rw [if_neg (by rw [hdel]; exact Bool.false_ne_true)]
      rw [if_neg]
      rw [hprev]
      simp only [Bool.and_eq_true, beq_iff_eq, Option.some_inj]
      rintro ⟨h1, -⟩
      exact hAB h1

-- Lemmas: merge base

theorem pickFirstMinByG_mem {α : Type} (f : α → Nat) :
    ∀ (l : List α) (a : α), pickFirstMinByG f l = some a → a ∈ l := by
  intro l
  induction l with
  | nil => intro a h; cases h
  | cons x xs ih =>
    intro a h
    rw [pickFirstMinByG] at h
    cases hp : pickFirstMinByG f xs with
    | none => rw [hp] at h; dsimp only at h; cases h; simp
    | some y =>
      rw [hp] at h
      dsimp only at h
      by_cases hle : f x ≤ f y
      · rw [if_pos hle] at h; cases h; simp
      · rw [if_neg hle] at h
        cases h
        exact List.mem_cons_of_mem _ (ih _ hp)

theorem pickFirstMinByG_unique {α : Type} (f : α → Nat) :
    ∀ (l : List α) (a : α), a ∈ l →
      (∀ b ∈ l, b ≠ a → f a < f b) → pickFirstMinByG f l = some a := by
  intro l
  induction l with
  | nil => intro a h; cases h
  | cons x xs ih =>
    intro a ha hmin
    rw [pickFirstMinByG]
    rcases List.mem_cons.mp ha with rfl | ha
    · cases hp : pickFirstMinByG f xs with
      | none => rfl
      | some y =>
        dsimp only
        have hy : y ∈ xs := pickFirstMinByG_mem f xs y hp
        by_cases hya : y = a
        · subst hya; rw [if_pos (Nat.le_refl _)]
        · rw [if_pos (Nat.le_of_lt
            (hmin y (List.mem_cons_of_mem _ hy) hya))]
    · have hps : pickFirstMinByG f xs = some a :=
        ih a ha (fun b hb hba => hmin b (List.mem_cons_of_mem _ hb) hba)
      rw [hps]
      dsimp only
      by_cases hxa : x = a
      · subst hxa; rw [if_pos (Nat.le_refl _)]
      · rw [if_neg (by
          have := hmin x (List.mem_cons_self _ _) hxa
          omega)]

theorem mem_dedupFirstAux {α : Type} [DecidableEq α] :
    ∀ (l seen : List α) (x : α),
      x ∈ dedupFirstAux seen l ↔ x ∈ l ∧ x ∉ seen := by
  intro l
  induction l with
  | nil => intro seen x; simp [dedupFirstAux]
  | cons y l ih =>
    intro seen x
    rw [dedupFirstAux]
    by_cases hy : y ∈ seen
    · rw [if_pos hy, ih]
      constructor
      · rintro ⟨hx, hs⟩
        exact ⟨List.mem_cons_of_mem _ hx, hs⟩
      · rintro ⟨hx, hs⟩
        rcases List.mem_cons.mp hx with rfl | hx
        · exact absurd hy hs
        · exact ⟨hx, hs⟩
    · rw [if_neg hy]
      constructor
      · intro hx
        rcases List.mem_cons.mp hx with rfl | hx
        · exact ⟨List.mem_cons_self _ _, hy⟩
        · rw [ih] at hx
          refine ⟨List.mem_cons_of_mem _ hx.1, ?_⟩
          intro hs
          exact hx.2 (List.mem_cons_of_mem _ hs)
      · rintro ⟨hx, hs⟩
        rcases List.mem_cons.mp hx with rfl | hx
        · exact List.mem_cons_self _ _
        · by_cases hxy : x = y
          · subst hxy; exact List.mem_cons_self _ _
          · refine List.mem_cons_of_mem _ ?_
            rw [ih]
            refine ⟨hx, ?_⟩
            intro hmem
            rcases List.mem_cons.mp hmem with h | h
            · exact hxy h
            · exact hs h

theorem mem_commonIds (db : Db) (x y i : Nat) :
    i ∈ commonIds db x y ↔
      (∃ d, (i, d) ∈ ancDepths db x) ∧ (∃ d, (i, d) ∈ ancDepths db y) := by
  unfold commonIds
  rw [mem_dedupFirstAux]
  simp only [List.not_mem_nil, not_false_iff, and_true]
  rw [List.mem_filter]
  constructor
  · rintro ⟨hmx, hmy⟩
    constructor
    · obtain ⟨pr, hpr, hpr2⟩ := List.mem_map.mp hmx
      exact ⟨pr.2, by rw [← hpr2, Prod.mk.eta]; exact hpr⟩
    · have := List.contains_iff_exists_mem_beq.mp hmy
      obtain ⟨j, hj, hbeq⟩ := this
      obtain ⟨pr, hpr, hpr2⟩ := List.mem_map.mp hj
      rw [beq_iff_eq] at hbeq
      subst hbeq
      exact ⟨pr.2, by rw [← hpr2, Prod.mk.eta]; exact hpr⟩
  · rintro ⟨⟨dx, hdx⟩, ⟨dy, hdy⟩⟩
    constructor
    · exact List.mem_map.mpr ⟨(i, dx), hdx, rfl⟩
    · rw [List.contains_iff_exists_mem_beq]
      exact ⟨i, List.mem_map.mpr ⟨(i, dy), hdy, rfl⟩, by simp⟩

theorem mbScore_symm (db : Db) (x y i : Nat) :
    mbScore db y x i = mbScore db x y i := by
  unfold mbScore
  exact Nat.add_comm _ _

/-- Claim C4 (amended): getMergeBase is symmetric whenever the common
ancestor minimizing the summed distance is unique.  With ties the unordered
SQL tie-break is enumeration-dependent and symmetry can fail (see the
counterexample). -/
theorem C4_mergeBase_symm_of_unique_min (db : Db) (x y : Nat) (cx cy : CommitRow) (i : Nat)
    (hx : findCommit db x = some cx) (hy : findCommit db y = some cy)
    (hrepo : cx.repositoryId = cy.repositoryId)
    (hmem : i ∈ commonIds db x y)
    (hmin : ∀ j ∈ commonIds db x y, j ≠ i →
      mbScore db x y i < mbScore db x y j) :
    getMergeBase db x y = getMergeBase db y x := by
  have h1 : pickFirstMinByG (mbScore db x y) (commonIds db x y) = some i :=
    pickFirstMinByG_unique _ _ _ hmem hmin
  have hmem' : i ∈ commonIds db y x := by
    rw [mem_commonIds]
    have := (mem_commonIds db x y i).mp hmem
    exact ⟨this.2, this.1⟩
  have hmin' : ∀ j ∈ commonIds db y x, j ≠ i →
      mbScore db y x i < mbScore db y x j := by
    intro j hj hji
    rw [mbScore_symm db x y i, mbScore_symm db x y j]
    have hjm := (mem_commonIds db y x j).mp hj
    exact hmin j ((mem_commonIds db x y j).mpr ⟨hjm.2, hjm.1⟩) hji
  have h2 : pickFirstMinByG (mbScore db y x) (commonIds db y x) = some i :=
    pickFirstMinByG_unique _ _ _ hmem' hmin'
  by_cases h0 : x = 0 ∨ y = 0
  · unfold getMergeBase
    rw [if_pos h0, if_pos (Or.symm h0)]
  · unfold getMergeBase
    rw [if_neg h0, if_neg (fun hc => h0 (Or.symm hc))]
    simp only [hx, hy]
    rw [if_neg (not_not_intro hrepo), if_neg (not_not_intro hrepo.symm)]
    simp only [h1, h2]

-- Lemmas: conflict detection

theorem listCharLe_total : ∀ a b : List Char,
    listCharLe a b = true ∨ listCharLe b a = true := by
  intro a
  induction a with
  | nil => intro b; exact Or.inl rfl
  | cons x xs ih =>
    intro b
    cases b with
    | nil => exact Or.inr rfl
    | cons y ys =>
      rw [listCharLe, listCharLe]
      by_cases heq : x.toNat = y.toNat
      · rw [if_pos heq, if_pos heq.symm]
        exact ih ys
      · rw [if_neg heq, if_neg (fun h => heq h.symm)]
        rcases Nat.lt_or_ge x.toNat y.toNat with h | h
        · exact Or.inl (by simpa using h)
        · have : y.toNat < x.toNat := by omega
          exact Or.inr (by simpa using this)

theorem listCharLe_trans : ∀ a b c : List Char,
    listCharLe a b = true → listCharLe b c = true →
      listCharLe a c = true := by
  intro a
  induction a with
  | nil => intro b c _ _; rfl
  | cons x xs ih =>
    intro b c h1 h2
    cases b with
    | nil => cases h1
    | cons y ys =>
      cases c with
      | nil => cases h2
      | cons z zs =>
        rw [listCharLe] at h1 h2 ⊢
        by_cases hxy : x.toNat = y.toNat <;>
          by_cases hyz : y.toNat = z.toNat
        · rw [if_pos hxy] at h1
          rw [if_pos hyz] at h2
          rw [if_pos (hxy.trans hyz)]
          exact ih ys zs h1 h2
        · rw [if_pos hxy] at h1
          rw [if_neg hyz] at h2
          rw [decide_eq_true_eq] at h2
          rw [if_neg (by omega), decide_eq_true_eq]
          omega
        · rw [if_neg hxy, decide_eq_true_eq] at h1
          rw [if_pos hyz] at h2
          rw [if_neg (by omega), decide_eq_true_eq]
          omega
        · rw [if_neg hxy, decide_eq_true_eq] at h1
          rw [if_neg hyz, decide_eq_true_eq] at h2
          rw [if_neg (by omega), decide_eq_true_eq]
          omega

instance : IsTotal ConflictEntry confLe :=
  ⟨fun a b => by unfold confLe strLe; exact listCharLe_total _ _⟩

instance : IsTrans ConflictEntry confLe :=
  ⟨fun a b c h1 h2 => by
    unfold confLe strLe at h1 h2 ⊢
    exact listCharLe_trans _ _ _ h1 h2⟩

theorem bne_triple_iff (a1 a2 b1 b2 : Bool) (c1 c2 : Option String) :
    ((a1 != a2 || b1 != b2 || c1 != c2) = true) ↔
      ((a1, b1, c1) ≠ (a2, b2, c2)) := by
  simp only [Bool.or_eq_true, bne_iff_ne, Ne, Prod.mk.injEq, not_and]
  tauto

theorem kindIf_eq (bs ls rs : List SnapC) (p : String) :
    (if (snapFind bs p).isSome &&
        (!(snapFind ls p).isSome || !(snapFind rs p).isSome) then
       "delete/modify"
     else if !(snapFind bs p).isSome && (snapFind ls p).isSome &&
        (snapFind rs p).isSome then "add/add"
     else "modify/modify") = classifyKind bs ls rs p := by
  unfold classifyKind tripleAt
  by_cases hb : (snapFind bs p).isSome = true <;>
    by_cases hl : (snapFind ls p).isSome = true <;>
      by_cases hr : (snapFind rs p).isSome = true <;>
        simp [hb, hl, hr, Bool.not_eq_true] at * <;>
          simp [hb, hl, hr]

theorem conflictAt_of_cond (mb : Nat) (bs ls rs : List SnapC) (p : String)
    (hc : conflictCond bs ls rs p) :
    conflictAt mb bs ls rs p = some
      { mergeBaseCommitId := mb, path := p,
        baseExists := (snapFind bs p).isSome,
        baseIsSymlink := ((snapFind bs p).map (fun e => e.isSymlink)).getD false,
        baseContent := (snapFind bs p).map (fun e => e.content),
        leftExists := (snapFind ls p).isSome,
        leftIsSymlink := ((snapFind ls p).map (fun e => e.isSymlink)).getD false,
        leftContent := (snapFind ls p).map (fun e => e.content),
        rightExists := (snapFind rs p).isSome,
        rightIsSymlink := ((snapFind rs p).map (fun e => e.isSymlink)).getD false,
        rightContent := (snapFind rs p).map (fun e => e.content),
        conflictKind := classifyKind bs ls rs p } := by
  unfold conflictAt
  dsimp only
  rw [if_pos ?hcond]
  case hcond =>
    rw [Bool.and_eq_true, Bool.and_eq_true]
    rw [bne_triple_iff, bne_triple_iff, bne_triple_iff]
    unfold conflictCond tripleAt at hc
    tauto
  rw [kindIf_eq]

theorem conflictAt_none (mb : Nat) (bs ls rs : List SnapC) (p : String)
    (hc : ¬conflictCond bs ls rs p) :
    conflictAt mb bs ls rs p = none := by
  unfold conflictAt
  dsimp only
  rw [if_neg]
  intro hcond
  apply hc
  rw [Bool.and_eq_true, Bool.and_eq_true] at hcond
  rw [bne_triple_iff, bne_triple_iff, bne_triple_iff] at hcond
  unfold conflictCond tripleAt
  tauto

theorem conflictAt_some_inv (mb : Nat) (bs ls rs : List SnapC) (p : String)
    (e : ConflictEntry) (h : conflictAt mb bs ls rs p = some e) :
    e.path = p ∧ e.conflictKind = classifyKind bs ls rs p ∧
      conflictCond bs ls rs p := by
  by_cases hc : conflictCond bs ls rs p
  · rw [conflictAt_of_cond mb bs ls rs p hc] at h
    cases h
    exact ⟨rfl, rfl, hc⟩
  · rw [conflictAt_none mb bs ls rs p hc] at h
    cases h

theorem snapFind_some_mem {s : List SnapC} {p : String} {e : SnapC}
    (h : snapFind s p = some e) : p ∈ s.map (fun x => x.path) := by
  unfold snapFind at h
  have hm := List.find?_some h
  have hmem := List.mem_of_find?_eq_some h
  rw [beq_iff_eq] at hm
  exact List.mem_map.mpr ⟨e, hmem, hm⟩

theorem cond_mem_paths (bs ls rs : List SnapC) (p : String)
    (hc : conflictCond bs ls rs p) :
    p ∈ bs.map (fun e => e.path) ++ ls.map (fun e => e.path) ++
      rs.map (fun e => e.path) := by
  cases hbn : snapFind bs p with
  | some e =>
    simp only [List.mem_append]
    exact Or.inl (Or.inl (snapFind_some_mem hbn))
  | none =>
    cases hln : snapFind ls p with
    | some e =>
      simp only [List.mem_append]
      exact Or.inl (Or.inr (snapFind_some_mem hln))
    | none =>
      exfalso
      apply hc.1
      unfold tripleAt
      rw [hbn, hln]

/-- Claim C5: getConflicts reports a path if and only if both sides changed
from the merge base and the two sides differ, comparing the (existence,
symlink flag, content) triple; each entry is classified delete/modify when
the path existed at base and is missing on a side, add/add when absent at
base and present on both sides, modify/modify otherwise; and the list is
sorted by path. -/
theorem C5_getConflicts_characterization (db : Db) (l r mb : Nat)
    (bs ls rs : List SnapC) (L : List ConflictEntry)
    (hmb : getMergeBase db l r = .ok mb)
    (hbs : getCommitSnapshotWithContent db mb none = .ok bs)
    (hls : getCommitSnapshotWithContent db l none = .ok ls)
    (hrs : getCommitSnapshotWithContent db r none = .ok rs)
    (hL : getConflicts db l r = .ok L) :
    (∀ p, (∃ e ∈ L, e.path = p) ↔ conflictCond bs ls rs p) ∧
    (∀ e ∈ L, e.conflictKind = classifyKind bs ls rs e.path) ∧
    L.Pairwise confLe := by
  unfold getConflicts at hL
  rw [hmb] at hL
  dsimp only at hL
  rw [hbs] at hL
  dsimp only at hL
  rw [hls] at hL
  dsimp only at hL
  rw [hrs] at hL
  dsimp only at hL
  have hLeq : L = List.insertionSort confLe
      ((dedupFirstAux [] (bs.map (fun e => e.path) ++
        ls.map (fun e => e.path) ++ rs.map (fun e => e.path))).filterMap
        (fun p => conflictAt mb bs ls rs p)) := by
    cases hL
    rfl
  have hmem : ∀ e : ConflictEntry, e ∈ L ↔
      e ∈ (dedupFirstAux [] (bs.map (fun e => e.path) ++
        ls.map (fun e => e.path) ++ rs.map (fun e => e.path))).filterMap
        (fun p => conflictAt mb bs ls rs p) := by
    intro e
    rw [hLeq]
    exact (List.perm_insertionSort confLe _).mem_iff
  refine ⟨?_, ?_, ?_⟩
  · intro p
    constructor
    · rintro ⟨e, heL, rfl⟩
      obtain ⟨p', hp', hsome⟩ := List.mem_filterMap.mp ((hmem e).mp heL)
      obtain ⟨hpath, -, hcond⟩ := conflictAt_some_inv mb bs ls rs p' e hsome
      rw [← hpath] at hcond
      exact hcond
    · intro hc
      refine ⟨_, (hmem _).mpr (List.mem_filterMap.mpr
        ⟨p, ?_, conflictAt_of_cond mb bs ls rs p hc⟩), rfl⟩
      rw [mem_dedupFirstAux]
      exact ⟨cond_mem_paths bs ls rs p hc, by simp⟩
  · intro e heL
    obtain ⟨p', hp', hsome⟩ := List.mem_filterMap.mp ((hmem e).mp heL)
    obtain ⟨hpath, hkind, -⟩ := conflictAt_some_inv mb bs ls rs p' e hsome
    rw [hpath]
    exact hkind
  · rw [hLeq]
    exact List.sorted_insertionSort confLe _

-- Lemmas: rebase and finalize

/-- Claim C1 (amended): when two same-repository branches with non-null heads
are neither equal nor in an ancestor relationship and the conflict detector
reports a non-empty list, rebaseBranch fails with the blocked-rebase error --
whose message carries the conflict count and the two compared head commit
ids, not the conflict list itself -- and the store is returned unchanged (no
commit, file delta, or branch head is mutated). -/
theorem C1_rebase_blocked_carries_count_only (db : Db) (b o : Nat) (m : Option String)
    (br onto : BranchRow) (bh oh mb : Nat) (L : List ConflictEntry)
    (hb0 : b ≠ 0) (ho0 : o ≠ 0)
    (hfb : findBranch db b = some br) (hfo : findBranch db o = some onto)
    (hrepo : br.repositoryId = onto.repositoryId)
    (hbo : b ≠ o)
    (hbh : br.headCommitId = some bh) (hoh : onto.headCommitId = some oh)
    (hmb : getMergeBase db bh oh = .ok mb)
    (hmbo : mb ≠ oh) (hmbb : mb ≠ bh)
    (hcf : getConflicts db bh oh = .ok L) (hne : L ≠ []) :
    rebaseBranch db b o m =
      (.error (rebaseBlockedMsg L.length bh oh), db) := by
  unfold rebaseBranch
  rw [if_neg (by rintro (h | h); exacts [hb0 h, ho0 h])]
  simp only [hfb]
  simp only [hfo]
  rw [if_neg (not_not_intro hrepo)]
  rw [if_neg hbo]
  simp only [hbh, hoh]
  simp only [hmb]
  rw [if_neg hmbo, if_neg hmbb]
  simp only [hcf]
  rw [if_pos (by
    intro hlen
    exact hne (List.length_eq_zero.mp hlen))]

theorem getConflicts_ok_mergeBase (db : Db) (x y : Nat)
    (L : List ConflictEntry) (h : getConflicts db x y = .ok L) :
    ∃ mb, getMergeBase db x y = .ok mb := by
  unfold getConflicts at h
  cases hm : getMergeBase db x y with
  | error e => rw [hm] at h; cases h
  | ok mb => exact ⟨mb, rfl⟩

/-- Claim C2 (amended): finalizing a merge commit whose detected conflict
set has paths without a delta row recorded against the commit fails with the
unresolved-conflicts error -- whose message carries the count of missing
paths and the commit id, not the paths themselves -- and no further mutation
is performed (the store is returned unchanged). -/
theorem C2_finalize_unresolved_carries_count_only (db : Db) (c tb : Nat) (cm : CommitRow)
    (brr : BranchRow) (pc mf : Nat) (L missing : List ConflictEntry)
    (hc0 : c ≠ 0)
    (hfc : findCommit db c = some cm)
    (hfb : findBranch db tb = some brr)
    (hrepo : brr.repositoryId = cm.repositoryId)
    (hpc : cm.parentCommitId = some pc)
    (hhead : brr.headCommitId = some pc)
    (hmf : cm.mergedFromCommitId = some mf)
    (hcf : getConflicts db pc mf = .ok L)
    (hmiss : missing = L.filter (fun cf =>
      !(((filesOfCommit db c).map (fun f => f.path)).contains cf.path)))
    (hne : missing ≠ []) :
    finalizeCommit db c (some tb) =
      (.error (unresolvedMsg missing.length c), db) := by
  have hLne : L ≠ [] := by
    intro hLnil
    rw [hLnil] at hmiss
    simp at hmiss
    exact hne hmiss
  obtain ⟨mbv, hmb⟩ := getConflicts_ok_mergeBase db pc mf L hcf
  unfold finalizeCommit
  rw [if_neg hc0]
  simp only [hfc]
  simp only [hfb]
  rw [if_neg (not_not_intro hrepo)]
  simp only [hpc]
  rw [if_neg (not_not_intro hhead)]
  simp only [hhead, hmf]
  simp only [Option.getD_some]
  simp only [hmb]
  simp only [hcf]
  rw [if_pos (by
    cases hLc : L with
    | nil => exact absurd hLc hLne
    | cons a t => simp)]
  rw [if_pos (by
    rw [← hmiss]
    cases hmc : missing with
    | nil => exact absurd hmc hne
    | cons a t => simp)]
  rw [← hmiss]

/-- Claim C7: whenever rebaseBranch returns the fast_forward outcome, no
commit row, file row and no id is created -- the resulting store is exactly
the input store with the rebased branch's head repointed to the onto
branch's head. -/
theorem C7_fast_forward_frame (db : Db) (b o : Nat) (m : Option String)
    (r : RebaseResult) (db' : Db)
    (h : rebaseBranch db b o m = (.ok r, db'))
    (hop : r.operation = "fast_forward") :
    db'.commits = db.commits ∧ db'.files = db.files ∧
      db'.nextId = db.nextId ∧
      ∃ onto oh, findBranch db o = some onto ∧
        onto.headCommitId = some oh ∧
        db' = updateBranchHead db b oh ∧
        r.newBranchHeadCommitId = some oh ∧ r.rebasedCommitId = none := by
  unfold rebaseBranch at h
  by_cases h0 : b = 0 ∨ o = 0
  · rw [if_pos h0] at h
    simp only [Prod.mk.injEq] at h
    exact absurd h.1 (by simp)
  rw [if_neg h0] at h
  cases hfb : findBranch db b with
  | none =>
    simp only [hfb, Prod.mk.injEq] at h
    exact absurd h.1 (by simp)
  | some br =>
  simp only [hfb] at h
  cases hfo : findBranch db o with
  | none =>
    simp only [hfo, Prod.mk.injEq] at h
    exact absurd h.1 (by simp)
  | some onto =>
  simp only [hfo] at h
  by_cases hrep : br.repositoryId ≠ onto.repositoryId
  · rw [if_pos hrep] at h
    simp only [Prod.mk.injEq] at h
    exact absurd h.1 (by simp)
  rw [if_neg hrep] at h
  by_cases hbo : b = o
  · rw [if_pos hbo] at h
    simp only [Prod.mk.injEq] at h
    obtain ⟨h1, h2⟩ := h
    injection h1 with h1
    subst h1
    dsimp only at hop
    exact absurd hop (by decide)
  rw [if_neg hbo] at h
  cases hbh : br.headCommitId with
  | none =>
    simp only [hbh, Prod.mk.injEq] at h
    exact absurd h.1 (by simp)
  | some bh =>
  simp only [hbh] at h
  cases hoh : onto.headCommitId with
  | none =>
    simp only [hoh, Prod.mk.injEq] at h
    exact absurd h.1 (by simp)
  | some oh =>
  simp only [hoh] at h
  cases hgm : getMergeBase db bh oh with
  | error e =>
    simp only [hgm, Prod.mk.injEq] at h
    exact absurd h.1 (by simp)
  | ok mb =>
  simp only [hgm] at h
  by_cases hmb1 : mb = oh
  · rw [if_pos hmb1] at h
    simp only [Prod.mk.injEq] at h
    obtain ⟨h1, h2⟩ := h
    injection h1 with h1
    subst h1
    dsimp only at hop
    exact absurd hop (by decide)
  rw [if_neg hmb1] at h
  by_cases hmb2 : mb = bh
  · rw [if_pos hmb2] at h
    simp only [Prod.mk.injEq] at h
    obtain ⟨h1, h2⟩ := h
    injection h1 with h1
    subst h1
    subst h2
    exact ⟨rfl, rfl, rfl, onto, oh, rfl, hoh, rfl, rfl, rfl⟩
  rw [if_neg hmb2] at h
  cases hcf : getConflicts db bh oh with
  | error e =>
    simp only [hcf, Prod.mk.injEq] at h
    exact absurd h.1 (by simp)
  | ok conflicts =>
  simp only [hcf] at h
  by_cases hlen : conflicts.length ≠ 0
  · rw [if_pos hlen] at h
    simp only [Prod.mk.injEq] at h
    exact absurd h.1 (by simp)
  rw [if_neg hlen] at h
  cases hs1 : getCommitSnapshotWithContent db mb none with
  | error e =>
    simp only [hs1, Prod.mk.injEq] at h
    exact absurd h.1 (by simp)
  | ok bs =>
  simp only [hs1] at h
  cases hs2 : getCommitSnapshotWithContent db oh none with
  | error e =>
    simp only [hs2, Prod.mk.injEq] at h
    exact absurd h.1 (by simp)
  | ok os =>
  simp only [hs2] at h
  cases hs3 : getCommitSnapshotWithContent db bh none with
  | error e =>
    simp only [hs3, Prod.mk.injEq] at h
    exact absurd h.1 (by simp)
  | ok brs =>
  simp only [hs3] at h
  by_cases hfw : (rebasePatch bs os brs (dedupFirstAux []
      (bs.map (fun e => e.path) ++ os.map (fun e => e.path) ++
        brs.map (fun e => e.path)))).length = 0
  · rw [if_pos hfw] at h
    simp only [Prod.mk.injEq] at h
    obtain ⟨h1, h2⟩ := h
    injection h1 with h1
    subst h1
    subst h2
    exact ⟨rfl, rfl, rfl, onto, oh, rfl, hoh, rfl, rfl, rfl⟩
  rw [if_neg hfw] at h
  cases hcc : createCommit db br.repositoryId (m.getD ("rebase")) oh none with
  | error e =>
    simp only [hcc, Prod.mk.injEq] at h
    exact absurd h.1 (by simp)
  | ok pr =>
  obtain ⟨newId, db1⟩ := pr
  simp only [hcc] at h
  cases hws : writeFilesSeq db1 newId (rebasePatch bs os brs
      (dedupFirstAux [] (bs.map (fun e => e.path) ++
        os.map (fun e => e.path) ++ brs.map (fun e => e.path)))) with
  | mk res db2 =>
  cases res with
  | error e =>
    simp only [hws, Prod.mk.injEq] at h
    exact absurd h.1 (by simp)
  | ok u =>
    simp only [hws, Prod.mk.injEq] at h
    obtain ⟨h1, h2⟩ := h
    injection h1 with h1
    subst h1
    dsimp only at hop
    exact absurd hop (by decide)

-- Lemmas and claim theorems: normalization idempotence and output bound

/-- Claim C9: path normalization is idempotent -- normalizing an already
normalized path returns it unchanged. -/
theorem C9_normalizePath_idempotent (p q : String) (h : normalizePath p = .ok q) :
    normalizePath q = .ok q := by
  obtain ⟨hv, rfl, hlen⟩ := normalizePath_ok h
  set r := normalizeCore p.toList with hr
  have hbs : ∀ c ∈ r, c ≠ '\\' := fun c hc => by
    rcases mem_normalizeCore hc with rfl | ⟨c0, hc0, rfl⟩
    · decide
    · exact slashify_ne_backslash c0
  have hhead := normalizeCore_head p.toList
  have hnd := normalizeCore_noDouble p.toList
  have htr := normalizeCore_trailing p.toList
  rw [← hr] at hhead hnd htr
  unfold normalizePath
  rw [validate_normalized p hv hlen]
  simp only
  rw [toList_strMk, normalizeCore_fix r hbs hhead hnd htr]
  rw [if_neg (by omega)]

theorem noDouble_of_tail_no_slash :
    ∀ (l : List Char), (∀ c ∈ l, c ≠ '/') → ∀ a, hasDoubleSlash (a :: l) = false := by
  intro l
  induction l with
  | nil => intro _ a; rfl
  | cons c r ih =>
    intro h a
    rw [hasDoubleSlash.eq_3]
    rw [ih (fun x hx => h x (by simp [hx])) c]
    have hc : c ≠ '/' := h c (by simp)
    simp [hc]

theorem data_strMk (l : List Char) : (String.mk l).data = l := rfl

theorem validatePath_p4096 : validatePath p4096 = .ok () := by
  unfold p4096
  rw [validatePath_ok_iff]
  simp only [data_strMk, toList_strMk]
  refine ⟨?_, by rw [List.length_replicate], ?_, ?_⟩
  · rw [show (4096 : Nat) = 4095 + 1 from rfl, List.replicate_succ]
    intro hcon
    exact trimChars_ne_nil _ (by decide) (List.length_eq_zero.mp hcon)
  · rw [List.any_eq_false]
    intro c hc
    rw [List.eq_of_mem_replicate hc]
    decide
  · rw [List.any_eq_false]
    intro c hc
    rw [List.eq_of_mem_replicate hc]
    decide

theorem normalizeCore_p4096 :
    normalizeCore (List.replicate 4096 'a') = '/' :: List.replicate 4096 'a' := by
  unfold normalizeCore
  rw [map_id_of (fun c hc => by rw [List.eq_of_mem_replicate hc]; decide)]
  have hforce : forceLeadingSlash (List.replicate 4096 'a') =
      '/' :: List.replicate 4096 'a' := by
    rw [show (4096 : Nat) = 4095 + 1 from rfl, List.replicate_succ]
    rfl
  rw [hforce]
  have hnd : hasDoubleSlash ('/' :: List.replicate 4096 'a') = false :=
    noDouble_of_tail_no_slash _
      (fun c hc => by rw [List.eq_of_mem_replicate hc]; decide) '/'
  have hcol : collapseSlashes ('/' :: List.replicate 4096 'a') =
      '/' :: List.replicate 4096 'a' := collapseFuel_fix _ _ hnd
  rw [hcol]
  unfold stripTrailingSlash
  rw [if_neg]
  simp only [Bool.and_eq_true, decide_eq_true_eq, beq_iff_eq]
  rintro ⟨-, hlast⟩
  rw [show (4096 : Nat) = 4095 + 1 from rfl, List.replicate_succ'] at hlast
  rw [show ('/' :: (List.replicate 4095 'a' ++ ['a'])) =
      ('/' :: List.replicate 4095 'a') ++ ['a'] from rfl] at hlast
  rw [List.getLast?_concat] at hlast
  cases hlast

/-- Claim C10: normalizePath re-enforces the 4096-character limit on its
output: every returned path has length at most 4096, and the 4096-character
input of p4096 passes validatePath but is rejected with the path-too-long
error because the forced leading slash lengthens it to 4097. -/
theorem C10_normalize_output_bound :
    (∀ p q : String, normalizePath p = .ok q → q.length ≤ 4096) ∧
    validatePath p4096 = .ok () ∧
    normalizePath p4096 =
      .error ("Path is too long (maximum 4096 characters)") := by
  refine ⟨?_, validatePath_p4096, ?_⟩
  · intro p q h
    obtain ⟨-, rfl, hlen⟩ := normalizePath_ok h
    rw [strMk_length]
    exact hlen
  · unfold normalizePath
    rw [validatePath_p4096]
    simp only [p4096, data_strMk, toList_strMk]
    rw [normalizeCore_p4096]
    rw [if_pos (by rw [List.length_cons, List.length_replicate]; omega)]


/-- Claim C1 (counterexample): the blocked-rebase error does not carry the
full conflict list.  Two well-formed stores whose conflict lists differ (one
conflicts on /a, the other on /b) produce the identical error value, so the
list cannot be recovered from the error; both stores are returned
unmutated. -/
theorem C1_counterexample :
    db1.wf ∧ db2.wf ∧
    rebaseBranch db1 10 11 none = (.error
      ("Rebase blocked by 1 conflicts. Use getConflicts(2, 3) to inspect."),
      db1) ∧
    rebaseBranch db2 10 11 none = (.error
      ("Rebase blocked by 1 conflicts. Use getConflicts(2, 3) to inspect."),
      db2) ∧
    getConflicts db1 2 3 ≠ getConflicts db2 2 3 := by decide

/-- Claim C1 (witness): the amended theorem applied to the concrete
conflicted store db1. -/
theorem C1_witness :
    rebaseBranch db1 10 11 none =
      (.error (rebaseBlockedMsg c1L.length 2 3), db1) :=
  C1_rebase_blocked_carries_count_only db1 10 11 none
    ⟨10, 1, some 2⟩ ⟨11, 1, some 3⟩ 2 3 1 c1L
    (by decide) (by decide) (by decide) (by decide) (by decide) (by decide)
    (by decide) (by decide) (by decide) (by decide) (by decide)
    (by decide) (by decide)


/-- Claim C2 (counterexample): the unresolved-conflicts error does not list
the missing conflict paths.  Two well-formed stores whose missing-path sets
differ (/a versus /b) produce the identical error value; both stores are
returned unmutated. -/
theorem C2_counterexample :
    dbMerge1.wf ∧ dbMerge2.wf ∧
    finalizeCommit dbMerge1 4 (some 20) = (.error
      ("Merge requires resolutions for 1 conflict paths; insert rows into fs.files for commit 4"),
      dbMerge1) ∧
    finalizeCommit dbMerge2 4 (some 20) = (.error
      ("Merge requires resolutions for 1 conflict paths; insert rows into fs.files for commit 4"),
      dbMerge2) ∧
    getConflicts dbMerge1 2 3 ≠ getConflicts dbMerge2 2 3 := by decide

/-- Claim C2 (witness): the amended theorem applied to the concrete merge
store dbMerge1. -/
theorem C2_witness :
    finalizeCommit dbMerge1 4 (some 20) =
      (.error (unresolvedMsg c2L.length 4), dbMerge1) :=
  C2_finalize_unresolved_carries_count_only dbMerge1 4 20
    ⟨4, 1, some 2, some 3, "m"⟩ ⟨20, 1, some 2⟩ 2 3 c2L c2L
    (by decide) (by decide) (by decide) (by decide) (by decide) (by decide)
    (by decide) (by decide) (by decide) (by decide)

/-- Claim C3 (counterexample): a single well-formed commit that writes /a
and also moves /a to /b contributes two operations affecting /a at depth 0,
both in the snapshot operation list and among readFile's matching entries,
so the smallest-depth selection does face a tie. -/
theorem C3_counterexample :
    dbMoveTie.wf ∧
    ((opsFor dbMoveTie 1).filter
      (fun o => o.path == "/a" && o.depth == 0)).length = 2 ∧
    (matchingEntries dbMoveTie 1 ("/a")).length = 2 := by decide

/-- Claim C3 (witness): the amended theorem applied to the tie store
itself; restricted to write operations the count is at most one. -/
theorem C3_witness :
    ((opsFor dbMoveTie 1).filter
      (fun o => o.path == "/a" && o.depth == 0 && !o.isMoveAway)).length
      ≤ 1 :=
  C3_write_ops_unique_per_depth dbMoveTie (by decide) 1 ("/a") 0

/-- Claim C4 (counterexample): on a merge diamond where two common
ancestors tie at the minimal total distance, getMergeBase picks a different
ancestor for the two argument orders, refuting unconditional symmetry. -/
theorem C4_counterexample :
    dbDiamond.wf ∧
    getMergeBase dbDiamond 4 5 = .ok 2 ∧
    getMergeBase dbDiamond 5 4 = .ok 3 ∧
    getMergeBase dbDiamond 4 5 ≠ getMergeBase dbDiamond 5 4 := by decide

/-- Claim C4 (witness): the amended theorem applied to the concrete store
db1, whose two branch heads have a unique common ancestor. -/
theorem C4_witness :
    getMergeBase db1 2 3 = getMergeBase db1 3 2 :=
  C4_mergeBase_symm_of_unique_min db1 2 3
    ⟨2, 1, some 1, none, "c2"⟩ ⟨3, 1, some 1, none, "c3"⟩ 1
    (by decide) (by decide) (by decide) (by decide) (by decide)




/-- Claim C5 (witness): the characterization applied to the concrete
conflicted store db1. -/
theorem C5_witness :
    (∀ p, (∃ e ∈ c1L, e.path = p) ↔ conflictCond c5bs c5ls c5rs p) ∧
    (∀ e ∈ c1L, e.conflictKind = classifyKind c5bs c5ls c5rs e.path) ∧
    c1L.Pairwise confLe :=
  C5_getConflicts_characterization db1 2 3 1 c5bs c5ls c5rs c1L
    (by decide) (by decide) (by decide) (by decide) (by decide)

/-- Claim C6 (counterexample): a well-formed commit containing both a write
at /a and a move of /a to /b: the queried path /a resolves to the write's
content, not absent, because two depth-0 rows match and the unordered SQL
limit-1 can return the write. -/
theorem C6_counterexample :
    dbMoveTie.wf ∧
    ({ commitId := 1, path := "/b", previousPath := some ("/a"),
       content := "x", isDeleted := false, isSymlink := false } : FileRow)
      ∈ dbMoveTie.files ∧
    readFile dbMoveTie 1 ("/a") = .ok (some ("x")) ∧
    readFile dbMoveTie 1 ("/a") ≠ .ok none := by decide

/-- Claim C6 (witness): the amended theorem applied to a store holding a
single move record. -/
theorem C6_witness :
    readFile dbMove 1 ("/a") = .ok none ∧
    readFile dbMove 1 ("/b") = .ok (some ("hello")) :=
  C6_rename_semantics_no_other_delta dbMove 1 ⟨1, 1, none, none, "c1"⟩
    ⟨1, "/b", some ("/a"), "hello", false, false⟩ ("/a") ("/b")
    (by decide) (by decide) (by decide) (by decide) (by decide) (by decide)
    (by decide) (by decide) (by decide) (by decide) (by decide) (by decide)
    (by decide)


/-- Claim C7 (witness): the frame theorem applied to the concrete
fast-forward store dbFF. -/
theorem C7_witness :
    (updateBranchHead dbFF 10 2).commits = dbFF.commits ∧
    (updateBranchHead dbFF 10 2).files = dbFF.files ∧
    (updateBranchHead dbFF 10 2).nextId = dbFF.nextId ∧
    ∃ onto oh, findBranch dbFF 11 = some onto ∧
      onto.headCommitId = some oh ∧
      updateBranchHead dbFF 10 2 = updateBranchHead dbFF 10 oh ∧
      c7r.newBranchHeadCommitId = some oh ∧ c7r.rebasedCommitId = none :=
  C7_fast_forward_frame dbFF 10 11 none c7r (updateBranchHead dbFF 10 2)
    (by decide) (by decide)

/-- Claim C8 (witness): the theorem applied to a store whose child commit
tombstones a path written by the root. -/
theorem C8_witness :
    readFile dbTomb 2 ("/a") = .ok none ∧
    ∀ e ∈ matchingEntries dbTomb 2 ("/a"), 0 ≤ e.1 :=
  C8_tombstone_reads_absent dbTomb 2 ⟨2, 1, some 1, none, "c2"⟩ ("/a") ("/a") 0
    ⟨2, "/a", none, "", true, false⟩
    (by decide) (by decide) (by decide) (by decide) (by decide)

/-- Claim C9 (witness): idempotence applied to a path that normalization
actually rewrites. -/
theorem C9_witness :
    normalizePath ("/a/b") = .ok ("/a/b") :=
  C9_normalizePath_idempotent ("//a\\b/") ("/a/b") (by decide)

/-- Claim C10 (witness): the output bound applied to a concrete input. -/
theorem C10_witness :
    normalizePath ("/ab") = .ok ("/ab") ∧ ("/ab" : String).length ≤ 4096 :=
  ⟨by decide, C10_normalize_output_bound.1 ("/ab") ("/ab") (by decide)⟩
